import Mathlib

/-!
Shallow embedding of `src/scripts/database/database/defaults.py` (CLBlast's
default-computation script).  Pandas dataframes are modelled as lists of
association-list rows together with an explicit column list; `NaN` cells are
`Option.none`.  The collaborating module `bests` and the column-name constants
from `clblast` are not part of the sources and are modelled from the spec
(each such definition says so in its doc comment).
-/

namespace CLBlastDefaults

/-- A pandas cell value: either a string or a number.  Numeric cells
(parameters, device counters, execution times) are modelled as integers: the
algorithms under verification only add, compare and take minima of them, and
integer arithmetic is exactly checkable. -/
inductive Val where
  | str : String → Val
  | num : ℤ → Val
deriving DecidableEq, Repr

/-- A cell: `none` models pandas `NaN` / a missing value. -/
abbrev Cell := Option Val

/-- A dataframe row: an association list from column names to values.
A column absent from the list is `NaN`. -/
abbrev Row := List (String × Val)

/-- Reading a cell of a row. -/
def cellOf (r : Row) (c : String) : Cell :=
  (r.find? (fun p => p.1 == c)).map Prod.snd

/-- A dataframe: a column list plus a list of rows. -/
structure Table where
  cols : List String
  rows : List Row
deriving DecidableEq

/-- The grouping key of a row for a list of key columns. -/
def keyOf (kcols : List String) (r : Row) : List Cell := kcols.map (cellOf r)

/-- Pandas `groupby` silently drops rows having `NaN` in any key column;
a row participates in grouping iff all its key cells are present. -/
def hasKey (kcols : List String) (r : Row) : Bool :=
  kcols.all (fun c => (cellOf r c).isSome)

/-- The rows of the group with key `k` (pandas `groupby` group member list). -/
def groupRows (kcols : List String) (k : List Cell) (rows : List Row) : List Row :=
  rows.filter (fun r => hasKey kcols r && decide (keyOf kcols r = k))

/-- Deduplication keeping the first occurrence of each element;
`seen` accumulates the elements already emitted. -/
def firstKeysAux (seen : List (List Cell)) : List (List Cell) → List (List Cell)
  | [] => []
  | k :: ks => if k ∈ seen then firstKeysAux seen ks else k :: firstKeysAux (k :: seen) ks

/-- Deduplication keeping the first occurrence of each element. -/
def firstKeys (l : List (List Cell)) : List (List Cell) := firstKeysAux [] l

/-- The distinct group keys of a `groupby`, in order of first appearance. -/
def groupbyKeys (kcols : List String) (rows : List Row) : List (List Cell) :=
  firstKeys ((rows.filter (hasKey kcols)).map (keyOf kcols))

/-- Lexicographic comparison of character lists (by code point). -/
def charListLe : List Char → List Char → Bool
  | [], _ => true
  | _ :: _, [] => false
  | a :: as, b :: bs => if a = b then charListLe as bs else decide (a.toNat < b.toNat)

/-- Total comparison on values: numbers by `≤` on `ℤ`, strings
lexicographically; (heterogeneous comparisons never occur inside one pandas
column; any total choice is adequate, numbers are taken below strings). -/
def Val.le : Val → Val → Bool
  | Val.num a, Val.num b => decide (a ≤ b)
  | Val.num _, Val.str _ => true
  | Val.str _, Val.num _ => false
  | Val.str a, Val.str b => charListLe a.toList b.toList

/-- Binary minimum for `Val.le`. -/
def Val.min2 (a b : Val) : Val := if Val.le a b then a else b

/-- Column-wise minimum over a list of rows (pandas `min(axis=0)` for one
column: `NaN` cells are skipped, an empty column yields `NaN`). -/
def colMinOf (rows : List Row) (c : String) : Cell :=
  match rows.filterMap (fun r => cellOf r c) with
  | [] => none
  | v :: vs => some (vs.foldl Val.min2 v)

/-- A pandas `Series` (one labelled row): its index (column list) and values. -/
structure Series where
  cols : List String
  val : Row
deriving DecidableEq

/-- Build a row over given columns from a cell-valued function. -/
def rowOfCols (cols : List String) (f : String → Cell) : Row :=
  cols.filterMap (fun c => (f c).map (fun v => (c, v)))

/-- Build a series over given columns from a cell-valued function. -/
def mkSeriesF (cols : List String) (f : String → Cell) : Series :=
  ⟨cols, rowOfCols cols f⟩

/-- Reading one labelled entry of a series. -/
def Series.cell (s : Series) (c : String) : Cell := cellOf s.val c

/-- Pandas assignment `series[c] = v`: overwrites the entry, adding the label
to the index when absent. -/
def seriesSet (s : Series) (c : String) (v : Val) : Series :=
  ⟨if c ∈ s.cols then s.cols else s.cols ++ [c], (c, v) :: s.val⟩

/-- Pandas `DataFrame.append(series, ignore_index=True)`: the column set is
the union (new columns appended at the end), the series becomes one new row. -/
def Table.append1 (t : Table) (s : Series) : Table :=
  ⟨t.cols ++ s.cols.filter (fun c => decide (c ∉ t.cols)), t.rows ++ [s.val]⟩

/-- Modelled from the spec: sentinel device name (`clblast.DEVICE_NAME_DEFAULT`
is declared outside the sources). -/
def DEVICE_NAME_DEFAULT : String := "default"

/-- Modelled from the spec: sentinel vendor (`clblast.VENDOR_DEFAULT`). -/
def VENDOR_DEFAULT : String := "default"

/-- Modelled from the spec: sentinel device type (`clblast.DEVICE_TYPE_DEFAULT`). -/
def DEVICE_TYPE_DEFAULT : String := "default"

/-- Modelled from the spec: `clblast.DEVICE_TYPE_ATTRIBUTES` (the
device-type/vendor grouping columns, spec section 2 and 6). -/
def DEVICE_TYPE_ATTRIBUTES : List String := ["device_vendor", "device_type"]

/-- Modelled from the spec: `clblast.DEVICE_ATTRIBUTES`, the device-identity
columns used to tell devices apart (spec section 3 and 6 list name, vendor,
type, compute-unit count and core clock). -/
def DEVICE_ATTRIBUTES : List String :=
  ["device", "device_vendor", "device_type", "device_compute_units", "device_core_clock"]

/-- Modelled from the spec: `bests.get_best_results` (module `bests` is not in
the sources).  Per spec sections 4.1 and 6, it partitions the records by the
device-identity attributes and returns, for each device, the row(s) with
minimal execution time. -/
def get_best_resultsRows (rows : List Row) : List Row :=
  ((groupbyKeys DEVICE_ATTRIBUTES rows).map (fun k =>
    let g := groupRows DEVICE_ATTRIBUTES k rows
    g.filter (fun r => decide (cellOf r "time" = colMinOf g "time")))).flatten

/-- Modelled from the spec: table-level wrapper of `get_best_resultsRows`. -/
def get_best_results (t : Table) : Table := ⟨t.cols, get_best_resultsRows t.rows⟩

/-- `get_smallest_best` (defaults.py line 65): the best rows of the table,
then the column-wise minimum (`min(axis=0)`), a series over the table's
columns. -/
def get_smallest_best (t : Table) : Series :=
  mkSeriesF t.cols (fun c => colMinOf (get_best_resultsRows t.rows) c)

/-- `database.dropna(axis=1, how='all')` (defaults.py line 81): drop the
columns with no value in any row. -/
def dropna_cols (t : Table) : Table :=
  ⟨t.cols.filter (fun c => t.rows.any (fun r => (cellOf r c).isSome)), t.rows⟩

/-- Substring test used for `"parameters." in c` (defaults.py line 85). -/
def startsWithSeq : List Char → List Char → Bool
  | [], _ => true
  | _ :: _, [] => false
  | a :: as, b :: bs => a = b && startsWithSeq as bs

/-- Substring containment on character lists. -/
def containsSeq (pat : List Char) : List Char → Bool
  | [] => pat.isEmpty
  | a :: as => startsWithSeq pat (a :: as) || containsSeq pat as

/-- Whether a column name is a parameter column (contains `"parameters."`). -/
def hasParamMark (c : String) : Bool := containsSeq "parameters.".toList c.toList

/-- Number of distinct devices in the table
(defaults.py line 78: `len(database.groupby(clblast.DEVICE_ATTRIBUTES))`). -/
def numDevices (t : Table) : Nat := (groupbyKeys DEVICE_ATTRIBUTES t.rows).length

/-- `parameter_column_names` (defaults.py lines 84-85): the parameter columns
remaining after `dropna`. -/
def commonParamCols (t : Table) : List String :=
  (dropna_cols t).cols.filter hasParamMark

/-- `database_common` (defaults.py lines 88-89): the rows whose parameter
combination is shared by all devices, i.e. the rows kept by
`groupby(parameter_column_names).filter(lambda x: len(x) == num_devices)`. -/
def commonRows (t : Table) : List Row :=
  let pcols := commonParamCols t
  t.rows.filter (fun r =>
    hasKey pcols r &&
      decide ((groupRows pcols (keyOf pcols r) t.rows).length = numDevices t))

/-- The execution time of a row (`NaN` and non-numeric cells count as 0, as in
a pandas `sum` which skips `NaN`). -/
def timeOf (r : Row) : ℤ :=
  match cellOf r "time" with
  | some (Val.num q) => q
  | _ => 0

/-- Sum of the execution times of a list of rows. -/
def sumTimes (rows : List Row) : ℤ := rows.foldl (fun acc r => acc + timeOf r) 0

/-- `group_time` of a row (defaults.py lines 97-99): the sum of the times of
the common rows sharing its parameter combination
(`database_common.groupby(parameter_column_names)['time'].transform(sum)`). -/
def groupTime (t : Table) (r : Row) : ℤ :=
  sumTimes (groupRows (commonParamCols t) (keyOf (commonParamCols t) r) (commonRows t))

/-- Executable minimum on `ℤ`. -/
def imin (a b : ℤ) : ℤ := if a ≤ b then a else b

/-- `best_time` (defaults.py line 102): the minimum of `group_time` over the
common rows. -/
def bestTime (t : Table) : ℤ :=
  match (commonRows t).map (groupTime t) with
  | [] => 0
  | q :: qs => qs.foldl imin q

/-- `database_bests` before deduplication (defaults.py line 103): the common
rows whose `group_time` equals `best_time`. -/
def database_bests (t : Table) : List Row :=
  (commonRows t).filter (fun r => decide (groupTime t r = bestTime t))

/-- Helper of `dedupByTime`: `seen` accumulates the `group_time` values whose
first row was already kept. -/
def dedupByTimeAux (t : Table) (seen : List ℤ) : List Row → List Row
  | [] => []
  | r :: rs =>
      if groupTime t r ∈ seen then dedupByTimeAux t seen rs
      else r :: dedupByTimeAux t (groupTime t r :: seen) rs

/-- `drop_duplicates(["group_time"])` (defaults.py line 106): keep the first
row for each distinct `group_time` value. -/
def dedupByTime (t : Table) (l : List Row) : List Row := dedupByTimeAux t [] l

/-- `database_bests` after deduplication (defaults.py line 106); the source
then asserts this has exactly one row (line 108). -/
def database_bests_dedup (t : Table) : List Row := dedupByTime t (database_bests t)

/-- The column list of `get_common_best`'s non-fallback result: the
column-dropped group's columns plus the added `group_time` column
(defaults.py line 99 adds it, overwriting an existing one). -/
def commonBestCols (t : Table) : List String :=
  if "group_time" ∈ (dropna_cols t).cols then (dropna_cols t).cols
  else (dropna_cols t).cols ++ ["group_time"]

/-- `get_common_best` (defaults.py line 72): restrict to parameter
combinations covered by every device; if none, fall back to
`get_smallest_best` on the column-dropped table; otherwise return the (first)
row of the minimal summed execution time, with its `group_time` column. -/
def get_common_best (t : Table) : Series :=
  if commonRows t = [] then get_smallest_best (dropna_cols t)
  else
    match database_bests_dedup t with
    | [] => mkSeriesF (commonBestCols t) (fun _ => none)
    | r0 :: _ =>
        mkSeriesF (commonBestCols t)
          (fun c => if c = "group_time" then some (Val.num (bestTime t)) else cellOf r0 c)

/-- `set_default_device` (defaults.py line 14). -/
def set_default_device (s : Series) : Series :=
  seriesSet (seriesSet (seriesSet s
      "device" (Val.str DEVICE_NAME_DEFAULT))
      "device_compute_units" (Val.num 0))
      "device_core_clock" (Val.num 0)

/-- `set_default_time` (defaults.py line 22). -/
def set_default_time (s : Series) : Series := seriesSet s "time" (Val.num 0)

/-- Tier-1 grouping columns (defaults.py line 33): device-type/vendor
attributes, kernel attributes, kernel name, argument attributes.  The kernel
and argument attribute lists come from `clblast` (not in the sources, spec
sections 3 and 6 describe them as fixed column sets) and are parameters here. -/
def tier1KeyCols (ka aa : List String) : List String :=
  DEVICE_TYPE_ATTRIBUTES ++ ka ++ ["kernel"] ++ aa

/-- Tier-2 grouping columns (defaults.py line 52): kernel attributes, kernel
name, argument attributes. -/
def tier2KeyCols (ka aa : List String) : List String := ka ++ ["kernel"] ++ aa

/-- Grouping columns of the validation pass (defaults.py line 45). -/
def warnKeyCols (ka : List String) : List String :=
  DEVICE_TYPE_ATTRIBUTES ++ ka ++ ["kernel"]

/-- The sub-table of a group. -/
def groupTable (t : Table) (kcols : List String) (k : List Cell) : Table :=
  ⟨t.cols, groupRows kcols k t.rows⟩

/-- One tier-1 default series (defaults.py lines 36-41): strategy choice, then
sentinel stamping. -/
def tier1Series (ka aa : List String) (t : Table) (ccb : Bool) (k : List Cell) : Series :=
  let g := groupTable t (tier1KeyCols ka aa) k
  set_default_time (set_default_device
    (if ccb then get_common_best g else get_smallest_best g))

/-- One tier-2 default series (defaults.py lines 54-58): always
`get_smallest_best`, then global sentinels, then device/time stamping. -/
def tier2Series (ka aa : List String) (t : Table) (k : List Cell) : Series :=
  let g := groupTable t (tier2KeyCols ka aa) k
  set_default_time (set_default_device
    (seriesSet (seriesSet (get_smallest_best g)
      "device_vendor" (Val.str VENDOR_DEFAULT))
      "device_type" (Val.str DEVICE_TYPE_DEFAULT)))

/-- Appending a list of series to a table one by one. -/
def appendAll (init : Table) (ss : List Series) : Table := ss.foldl Table.append1 init

/-- The tier-1 defaults table (defaults.py lines 30-42): one stamped row per
tier-1 group, appended to an initially empty dataframe. -/
def tier1_table (ka aa : List String) (t : Table) (ccb : Bool) : Table :=
  appendAll ⟨[], []⟩ ((groupbyKeys (tier1KeyCols ka aa) t.rows).map (tier1Series ka aa t ccb))

/-- `calculate_defaults` (defaults.py line 28): the tier-1 table followed by
one tier-2 row per tier-2 group. -/
def calculate_defaults (ka aa : List String) (t : Table) (ccb : Bool) : Table :=
  appendAll (tier1_table ka aa t ccb)
    ((groupbyKeys (tier2KeyCols ka aa) t.rows).map (tier2Series ka aa t))

/-- Rendering of a cell inside a warning message. -/
def cellString : Cell → String
  | some (Val.str s) => s
  | some (Val.num q) => toString q
  | none => ""

/-- The text of one warning (defaults.py line 48):
`database_group["kernel"].min() + " " + database_group["device_vendor"].min()`. -/
def mismatchDescription (g : List Row) : String :=
  cellString (colMinOf g "kernel") ++ " " ++ cellString (colMinOf g "device_vendor")

/-- The warnings printed by the validation pass (defaults.py lines 44-49): the
tier-1 table is grouped by the warning key columns and each group with more
than one row yields one message (the side-effecting `print` is modelled as the
list of messages, in group order). -/
def calculate_defaults_warnings (ka aa : List String) (t : Table) (ccb : Bool) : List String :=
  let d := tier1_table ka aa t ccb
  (groupbyKeys (warnKeyCols ka) d.rows).filterMap (fun k =>
    let g := groupRows (warnKeyCols ka) k d.rows
    if g.length ≠ 1 then some (mismatchDescription g) else none)

/-- Row equality observed through the cells of a column list. -/
def rowEqOn (cols : List String) (r₁ r₂ : Row) : Bool :=
  cols.all (fun c => decide (cellOf r₁ c = cellOf r₂ c))

/-- Equality of two row lists as sets of rows, observed on a column list. -/
def sameRowSetOn (cols : List String) (rs₁ rs₂ : List Row) : Bool :=
  rs₁.all (fun r => rs₂.any (rowEqOn cols r)) && rs₂.all (fun r => rs₁.any (rowEqOn cols r))

/-- A table is well formed when its rows mention only its columns (any table
representable as a pandas dataframe is). -/
def Table.Wf (t : Table) : Bool :=
  t.rows.all (fun r => r.all (fun p => decide (p.1 ∈ t.cols)))

/-- Order on cells with `NaN` as join point: `none` is largest (skipped by a
pandas column minimum). -/
def cellLe : Cell → Cell → Bool
  | _, none => true
  | none, some _ => false
  | some a, some b => Val.le a b

theorem cellOf_nil (x : String) : cellOf ([] : Row) x = none := rfl

theorem cellOf_cons (c₀ : String) (v₀ : Val) (r : Row) (x : String) :
    cellOf ((c₀, v₀) :: r) x = if c₀ = x then some v₀ else cellOf r x := by
  by_cases h : c₀ = x
  · subst h
    simp [cellOf, List.find?_cons_of_pos]
  · have hb : ((c₀, v₀).1 == x) = false := by
      simpa using h
    simp [cellOf, List.find?_cons_of_neg, hb, h]

theorem rowOfCols_cellOf (cols : List String) (f : String → Cell) (x : String) :
    cellOf (rowOfCols cols f) x = if x ∈ cols then f x else none := by
  induction cols with
  | nil => simp [rowOfCols, cellOf_nil]
  | cons c cs ih =>
      cases hfc : f c with
      | none =>
          have hrec : rowOfCols (c :: cs) f = rowOfCols cs f := by
            simp [rowOfCols, hfc]
          rw [hrec, ih]
          by_cases hx : x = c
          · subst hx
            by_cases hxs : x ∈ cs <;> simp [hxs, hfc]
          · simp [List.mem_cons, hx]
      | some v =>
          have hrec : rowOfCols (c :: cs) f = (c, v) :: rowOfCols cs f := by
            simp [rowOfCols, hfc]
          rw [hrec, cellOf_cons, ih]
          by_cases hx : c = x
          · subst hx
            simp [hfc]
          · have hx2 : ¬x = c := fun h => hx h.symm
            simp [hx, List.mem_cons, hx2]

theorem mkSeriesF_cell (cols : List String) (f : String → Cell) (x : String) :
    (mkSeriesF cols f).cell x = if x ∈ cols then f x else none := by
  simp [mkSeriesF, Series.cell, rowOfCols_cellOf]

theorem seriesSet_cell (s : Series) (c : String) (v : Val) (x : String) :
    (seriesSet s c v).cell x = if c = x then some v else s.cell x := by
  simp [seriesSet, Series.cell, cellOf_cons]

theorem seriesSet_cols_mem (s : Series) (c : String) (v : Val) (x : String) :
    x ∈ (seriesSet s c v).cols ↔ x ∈ s.cols ∨ x = c := by
  by_cases h : c ∈ s.cols
  · simp only [seriesSet, if_pos h]
    constructor
    · exact Or.inl
    · rintro (hx | rfl)
      · exact hx
      · exact h
  · simp only [seriesSet, if_neg h, List.mem_append, List.mem_singleton]

theorem charListLe_refl (l : List Char) : charListLe l l = true := by
  induction l with
  | nil => rfl
  | cons a as ih => simp [charListLe, ih]

theorem charListLe_trans : ∀ {l₁ l₂ l₃ : List Char},
    charListLe l₁ l₂ = true → charListLe l₂ l₃ = true → charListLe l₁ l₃ = true
  | [], _, _, _, _ => rfl
  | _ :: _, [], _, h₁, _ => by simp [charListLe] at h₁
  | _ :: _, _ :: _, [], _, h₂ => by simp [charListLe] at h₂
  | a :: as, b :: bs, c :: cs, h₁, h₂ => by
      by_cases hab : a = b
      · subst hab
        rw [charListLe, if_pos rfl] at h₁
        by_cases hac : a = c
        · subst hac
          rw [charListLe, if_pos rfl] at h₂ ⊢
          exact charListLe_trans h₁ h₂
        · rw [charListLe, if_neg hac] at h₂ ⊢
          exact h₂
      · rw [charListLe, if_neg hab] at h₁
        have hab2 : a.toNat < b.toNat := of_decide_eq_true h₁
        by_cases hbc : b = c
        · have hac : ¬a = c := fun h => hab (h.trans hbc.symm)
          rw [charListLe, if_neg hac]
          exact decide_eq_true (hbc ▸ hab2)
        · rw [charListLe, if_neg hbc] at h₂
          have hbc2 : b.toNat < c.toNat := of_decide_eq_true h₂
          have hac2 : a.toNat < c.toNat := Nat.lt_trans hab2 hbc2
          have hac : ¬a = c := by
            intro h
            rw [h] at hac2
            exact Nat.lt_irrefl _ hac2
          rw [charListLe, if_neg hac]
          exact decide_eq_true hac2

theorem charListLe_total (l₁ l₂ : List Char) :
    charListLe l₁ l₂ = true ∨ charListLe l₂ l₁ = true := by
  induction l₁ generalizing l₂ with
  | nil => exact Or.inl rfl
  | cons a as ih =>
      cases l₂ with
      | nil => exact Or.inr rfl
      | cons b bs =>
          by_cases hab : a = b
          · subst hab
            rcases ih bs with h | h
            · exact Or.inl (by rw [charListLe, if_pos rfl]; exact h)
            · exact Or.inr (by rw [charListLe, if_pos rfl]; exact h)
          · have hba : ¬b = a := fun h => hab h.symm
            rcases Nat.lt_or_ge a.toNat b.toNat with h | h
            · exact Or.inl (by rw [charListLe, if_neg hab]; exact decide_eq_true h)
            · have : b.toNat < a.toNat := by
                rcases Nat.lt_or_eq_of_le h with h2 | h2
                · exact h2
                · exact absurd (Char.ext (UInt32.ext h2.symm)) hab
              exact Or.inr (by rw [charListLe, if_neg hba]; exact decide_eq_true this)

theorem charListLe_antisymm : ∀ {l₁ l₂ : List Char},
    charListLe l₁ l₂ = true → charListLe l₂ l₁ = true → l₁ = l₂
  | [], [], _, _ => rfl
  | [], _ :: _, _, h₂ => by simp [charListLe] at h₂
  | _ :: _, [], h₁, _ => by simp [charListLe] at h₁
  | a :: as, b :: bs, h₁, h₂ => by
      by_cases hab : a = b
      · subst hab
        rw [charListLe, if_pos rfl] at h₁ h₂
        rw [charListLe_antisymm h₁ h₂]
      · have hba : ¬b = a := fun h => hab h.symm
        rw [charListLe, if_neg hab] at h₁
        rw [charListLe, if_neg hba] at h₂
        exact absurd (Nat.lt_trans (of_decide_eq_true h₁) (of_decide_eq_true h₂))
          (Nat.lt_irrefl _)

theorem string_toList_inj {a b : String} (h : a.toList = b.toList) : a = b := by
  cases a
  cases b
  exact congrArg String.mk (by simpa [String.toList] using h)

theorem Val.le_refl (a : Val) : Val.le a a = true := by
  cases a <;> simp [Val.le, charListLe_refl]

theorem Val.le_trans {a b c : Val} (h₁ : Val.le a b = true) (h₂ : Val.le b c = true) :
    Val.le a c = true := by
  cases a <;> cases b <;> cases c <;> simp_all [Val.le]
  · exact charListLe_trans h₁ h₂
  · exact h₁.trans h₂

theorem Val.le_total_bool (a b : Val) : Val.le a b = true ∨ Val.le b a = true := by
  cases a <;> cases b <;> simp [Val.le]
  · exact charListLe_total _ _
  · exact le_total _ _

theorem Val.le_antisymm {a b : Val} (h₁ : Val.le a b = true) (h₂ : Val.le b a = true) :
    a = b := by
  cases a <;> cases b <;> simp_all [Val.le]
  · exact string_toList_inj (charListLe_antisymm h₁ h₂)
  · exact h₁.antisymm h₂

theorem Val.min2_le_left (a b : Val) : Val.le (Val.min2 a b) a = true := by
  unfold Val.min2
  by_cases h : Val.le a b = true
  · simp [h, Val.le_refl]
  · rcases Val.le_total_bool a b with h1 | h1
    · exact absurd h1 h
    · simp [h, h1]

theorem Val.min2_le_right (a b : Val) : Val.le (Val.min2 a b) b = true := by
  unfold Val.min2
  by_cases h : Val.le a b = true
  · simp [h]
  · simp [h, Val.le_refl]

theorem Val.min2_mem (a b : Val) : Val.min2 a b = a ∨ Val.min2 a b = b := by
  unfold Val.min2
  by_cases h : Val.le a b = true <;> simp [h]

theorem Val.le_min2 {a b c : Val} (h₁ : Val.le c a = true) (h₂ : Val.le c b = true) :
    Val.le c (Val.min2 a b) = true := by
  rcases Val.min2_mem a b with h | h <;> rw [h] <;> assumption

theorem foldl_min2_le (vs : List Val) : ∀ (v₀ : Val), ∀ v ∈ v₀ :: vs,
    Val.le (vs.foldl Val.min2 v₀) v = true := by
  induction vs with
  | nil =>
      intro v₀ v hv
      rcases List.mem_singleton.mp hv with rfl
      exact Val.le_refl _
  | cons w ws ih =>
      intro v₀ v hv
      have hfold : (w :: ws).foldl Val.min2 v₀ = ws.foldl Val.min2 (Val.min2 v₀ w) := rfl
      rw [hfold]
      have hhead := ih (Val.min2 v₀ w) (Val.min2 v₀ w) (List.mem_cons_self _ _)
      rcases List.mem_cons.mp hv with rfl | hv2
      · exact Val.le_trans hhead (Val.min2_le_left _ _)
      · rcases List.mem_cons.mp hv2 with rfl | hv3
        · exact Val.le_trans hhead (Val.min2_le_right _ _)
        · exact ih (Val.min2 v₀ w) v (List.mem_cons_of_mem _ hv3)

theorem foldl_min2_mem (vs : List Val) : ∀ (v₀ : Val), vs.foldl Val.min2 v₀ ∈ v₀ :: vs := by
  induction vs with
  | nil => intro v₀; exact List.mem_singleton.mpr rfl
  | cons w ws ih =>
      intro v₀
      have hfold : (w :: ws).foldl Val.min2 v₀ = ws.foldl Val.min2 (Val.min2 v₀ w) := rfl
      rw [hfold]
      rcases List.mem_cons.mp (ih (Val.min2 v₀ w)) with h | h
      · rcases Val.min2_mem v₀ w with h2 | h2
        · rw [h, h2]; exact List.mem_cons_self _ _
        · rw [h, h2]; exact List.mem_cons_of_mem _ (List.mem_cons_self _ _)
      · exact List.mem_cons_of_mem _ (List.mem_cons_of_mem _ h)

theorem colMinOf_le {rows : List Row} {c : String} {r : Row} {v : Val}
    (hr : r ∈ rows) (hv : cellOf r c = some v) :
    ∃ w, colMinOf rows c = some w ∧ Val.le w v = true := by
  have hmem : v ∈ rows.filterMap (fun r => cellOf r c) :=
    List.mem_filterMap.mpr ⟨r, hr, hv⟩
  cases hl : rows.filterMap (fun r => cellOf r c) with
  | nil => rw [hl] at hmem; exact absurd hmem (List.not_mem_nil v)
  | cons v₁ vs =>
      refine ⟨vs.foldl Val.min2 v₁, by simp [colMinOf, hl], ?_⟩
      rw [hl] at hmem
      exact foldl_min2_le vs v₁ v hmem

theorem colMinOf_mem {rows : List Row} {c : String} {w : Val}
    (h : colMinOf rows c = some w) : ∃ r ∈ rows, cellOf r c = some w := by
  cases hl : rows.filterMap (fun r => cellOf r c) with
  | nil => simp [colMinOf, hl] at h
  | cons v₁ vs =>
      have hw : w ∈ v₁ :: vs := by
        have : vs.foldl Val.min2 v₁ = w := by simpa [colMinOf, hl] using h
        rw [← this]
        exact foldl_min2_mem vs v₁
      rw [← hl] at hw
      exact List.mem_filterMap.mp hw

theorem colMinOf_eq_none {rows : List Row} {c : String} :
    colMinOf rows c = none ↔ ∀ r ∈ rows, cellOf r c = none := by
  constructor
  · intro h r hr
    cases hv : cellOf r c with
    | none => rfl
    | some v =>
        rcases colMinOf_le hr hv with ⟨w, hw, _⟩
        rw [h] at hw
        exact absurd hw (by simp)
  · intro h
    cases hl : rows.filterMap (fun r => cellOf r c) with
    | nil => simp [colMinOf, hl]
    | cons v₁ vs =>
        have : v₁ ∈ rows.filterMap (fun r => cellOf r c) := by
          rw [hl]; exact List.mem_cons_self _ _
        rcases List.mem_filterMap.mp this with ⟨r, hr, hv⟩
        rw [h r hr] at hv
        exact absurd hv (by simp)

theorem colMinOf_eq_of_le {rows : List Row} {c : String} {w : Val}
    (hw : ∃ r ∈ rows, cellOf r c = some w)
    (hub : ∀ r ∈ rows, ∀ v, cellOf r c = some v → Val.le w v = true) :
    colMinOf rows c = some w := by
  rcases hw with ⟨r, hr, hv⟩
  rcases colMinOf_le hr hv with ⟨m, hm, hmle⟩
  rcases colMinOf_mem hm with ⟨r2, hr2, hv2⟩
  have := hub r2 hr2 m hv2
  rw [hm, Val.le_antisymm this hmle]

theorem colMinOf_const {rows : List Row} {c : String} {v : Val} (hne : rows ≠ [])
    (h : ∀ r ∈ rows, cellOf r c = some v) : colMinOf rows c = some v := by
  cases rows with
  | nil => exact absurd rfl hne
  | cons r rs =>
      refine colMinOf_eq_of_le ⟨r, List.mem_cons_self _ _, h r (List.mem_cons_self _ _)⟩ ?_
      intro r2 hr2 v2 hv2
      rw [h r2 hr2] at hv2
      cases hv2
      exact Val.le_refl _

theorem cellLe_colMinOf_of_subset {rows₁ rows₂ : List Row} {c : String}
    (hsub : ∀ r ∈ rows₁, r ∈ rows₂) :
    cellLe (colMinOf rows₂ c) (colMinOf rows₁ c) = true := by
  cases h1 : colMinOf rows₁ c with
  | none => cases colMinOf rows₂ c <;> simp [cellLe]
  | some w =>
      rcases colMinOf_mem h1 with ⟨r, hr, hv⟩
      rcases colMinOf_le (hsub r hr) hv with ⟨w2, hw2, hle⟩
      rw [hw2]
      exact hle

theorem mem_groupRows {kcols : List String} {k : List Cell} {rows : List Row} {r : Row} :
    r ∈ groupRows kcols k rows ↔ r ∈ rows ∧ hasKey kcols r = true ∧ keyOf kcols r = k := by
  simp [groupRows, List.mem_filter, and_assoc]

theorem mem_firstKeysAux (seen : List (List Cell)) (l : List (List Cell)) (k : List Cell) :
    k ∈ firstKeysAux seen l ↔ k ∈ l ∧ k ∉ seen := by
  induction l generalizing seen with
  | nil => simp [firstKeysAux]
  | cons x xs ih =>
      by_cases hx : x ∈ seen
      · rw [firstKeysAux, if_pos hx, ih]
        constructor
        · rintro ⟨h1, h2⟩
          exact ⟨List.mem_cons_of_mem _ h1, h2⟩
        · rintro ⟨h1, h2⟩
          rcases List.mem_cons.mp h1 with rfl | h3
          · exact absurd hx h2
          · exact ⟨h3, h2⟩
      · rw [firstKeysAux, if_neg hx]
        constructor
        · intro h
          rcases List.mem_cons.mp h with rfl | h2
          · exact ⟨List.mem_cons_self _ _, hx⟩
          · have := (ih (x :: seen)).mp h2
            refine ⟨List.mem_cons_of_mem _ this.1, ?_⟩
            intro hk
            exact this.2 (List.mem_cons_of_mem _ hk)
        · rintro ⟨h1, h2⟩
          rcases List.mem_cons.mp h1 with rfl | h3
          · exact List.mem_cons_self _ _
          · by_cases hk : k = x
            · exact hk ▸ List.mem_cons_self _ _
            · refine List.mem_cons_of_mem _ ((ih (x :: seen)).mpr ⟨h3, ?_⟩)
              intro hk2
              rcases List.mem_cons.mp hk2 with h4 | h4
              · exact hk h4
              · exact h2 h4

theorem mem_firstKeys (l : List (List Cell)) (k : List Cell) :
    k ∈ firstKeys l ↔ k ∈ l := by
  rw [firstKeys, mem_firstKeysAux]
  simp

theorem firstKeysAux_nodup (l : List (List Cell)) :
    ∀ seen, (firstKeysAux seen l).Nodup := by
  induction l with
  | nil => intro seen; simp [firstKeysAux]
  | cons x xs ih =>
      intro seen
      by_cases hx : x ∈ seen
      · rw [firstKeysAux, if_pos hx]
        exact ih seen
      · rw [firstKeysAux, if_neg hx]
        refine List.nodup_cons.mpr ⟨?_, ih (x :: seen)⟩
        intro hmem
        exact ((mem_firstKeysAux _ _ _).mp hmem).2 (List.mem_cons_self _ _)

theorem firstKeys_nodup (l : List (List Cell)) : (firstKeys l).Nodup :=
  firstKeysAux_nodup l []

theorem mem_groupbyKeys {kcols : List String} {rows : List Row} {k : List Cell} :
    k ∈ groupbyKeys kcols rows ↔ ∃ r ∈ rows, hasKey kcols r = true ∧ keyOf kcols r = k := by
  constructor
  · intro h
    have := (mem_firstKeys _ _).mp h
    rcases List.mem_map.mp this with ⟨r, hr, hk⟩
    have hr2 := List.mem_filter.mp hr
    exact ⟨r, hr2.1, hr2.2, hk⟩
  · rintro ⟨r, hr, hkey, rfl⟩
    refine (mem_firstKeys _ _).mpr ?_
    exact List.mem_map.mpr ⟨r, List.mem_filter.mpr ⟨hr, hkey⟩, rfl⟩

theorem groupbyKeys_nodup (kcols : List String) (rows : List Row) :
    (groupbyKeys kcols rows).Nodup := firstKeys_nodup _

theorem groupRows_ne_nil {kcols : List String} {rows : List Row} {k : List Cell}
    (h : k ∈ groupbyKeys kcols rows) : groupRows kcols k rows ≠ [] := by
  rcases mem_groupbyKeys.mp h with ⟨r, hr, hkey, hk⟩
  intro hnil
  have : r ∈ groupRows kcols k rows := mem_groupRows.mpr ⟨hr, hkey, hk⟩
  rw [hnil] at this
  exact List.not_mem_nil r this

theorem appendAll_rows (init : Table) (ss : List Series) :
    (appendAll init ss).rows = init.rows ++ ss.map Series.val := by
  induction ss generalizing init with
  | nil => simp [appendAll]
  | cons s ss ih =>
      have : appendAll init (s :: ss) = appendAll (init.append1 s) ss := rfl
      rw [this, ih]
      simp [Table.append1]

theorem mem_append1_cols {t : Table} {s : Series} {x : String} :
    x ∈ (t.append1 s).cols ↔ x ∈ t.cols ∨ x ∈ s.cols := by
  simp only [Table.append1, List.mem_append, List.mem_filter, decide_eq_true_eq]
  constructor
  · rintro (h | ⟨h, _⟩)
    · exact Or.inl h
    · exact Or.inr h
  · rintro (h | h)
    · exact Or.inl h
    · by_cases ht : x ∈ t.cols
      · exact Or.inl ht
      · exact Or.inr ⟨h, ht⟩

theorem mem_appendAll_cols {init : Table} {ss : List Series} {x : String} :
    x ∈ (appendAll init ss).cols ↔ x ∈ init.cols ∨ ∃ s ∈ ss, x ∈ s.cols := by
  induction ss generalizing init with
  | nil => simp [appendAll]
  | cons s ss ih =>
      have hstep : appendAll init (s :: ss) = appendAll (init.append1 s) ss := rfl
      rw [hstep, ih, mem_append1_cols]
      constructor
      · rintro ((h | h) | ⟨s2, hs2, hx⟩)
        · exact Or.inl h
        · exact Or.inr ⟨s, List.mem_cons_self _ _, h⟩
        · exact Or.inr ⟨s2, List.mem_cons_of_mem _ hs2, hx⟩
      · rintro (h | ⟨s2, hs2, hx⟩)
        · exact Or.inl (Or.inl h)
        · rcases List.mem_cons.mp hs2 with rfl | hs3
          · exact Or.inl (Or.inr hx)
          · exact Or.inr ⟨s2, hs3, hx⟩

theorem mem_of_mem_get_best_resultsRows {rows : List Row} {r : Row}
    (h : r ∈ get_best_resultsRows rows) : r ∈ rows := by
  rcases List.mem_flatten.mp h with ⟨l, hl, hrl⟩
  rcases List.mem_map.mp hl with ⟨k, _, rfl⟩
  have := List.mem_filter.mp hrl
  exact (mem_groupRows.mp this.1).1

theorem mem_dropna_cols {t : Table} {c : String} :
    c ∈ (dropna_cols t).cols ↔ c ∈ t.cols ∧ ∃ r ∈ t.rows, (cellOf r c).isSome = true := by
  simp [dropna_cols, List.mem_filter]

theorem dropna_cols_rows (t : Table) : (dropna_cols t).rows = t.rows := rfl

theorem imin_le_left (a b : ℤ) : imin a b ≤ a := by
  unfold imin
  by_cases h : a ≤ b
  · rw [if_pos h]
  · rw [if_neg h]
    exact le_of_not_le h

theorem imin_le_right (a b : ℤ) : imin a b ≤ b := by
  unfold imin
  by_cases h : a ≤ b
  · rw [if_pos h]; exact h
  · rw [if_neg h]

theorem imin_choice (a b : ℤ) : imin a b = a ∨ imin a b = b := by
  unfold imin
  by_cases h : a ≤ b
  · exact Or.inl (if_pos h)
  · exact Or.inr (if_neg h)

theorem foldl_imin_le (qs : List ℤ) :
    ∀ (q : ℤ), ∀ x ∈ q :: qs, qs.foldl imin q ≤ x := by
  induction qs with
  | nil =>
      intro q x hx
      rcases List.mem_singleton.mp hx with rfl
      exact le_refl _
  | cons w ws ih =>
      intro q x hx
      have hfold : (w :: ws).foldl imin q = ws.foldl imin (imin q w) := rfl
      rw [hfold]
      have hhead := ih (imin q w) (imin q w) (List.mem_cons_self _ _)
      rcases List.mem_cons.mp hx with rfl | hx2
      · exact le_trans hhead (imin_le_left _ _)
      · rcases List.mem_cons.mp hx2 with rfl | hx3
        · exact le_trans hhead (imin_le_right _ _)
        · exact ih (imin q w) x (List.mem_cons_of_mem _ hx3)

theorem foldl_imin_mem (qs : List ℤ) :
    ∀ (q : ℤ), qs.foldl imin q ∈ q :: qs := by
  induction qs with
  | nil => intro q; exact List.mem_singleton.mpr rfl
  | cons w ws ih =>
      intro q
      have hfold : (w :: ws).foldl imin q = ws.foldl imin (imin q w) := rfl
      rw [hfold]
      rcases List.mem_cons.mp (ih (imin q w)) with h | h
      · rcases imin_choice q w with h2 | h2
        · rw [h, h2]; exact List.mem_cons_self _ _
        · rw [h, h2]; exact List.mem_cons_of_mem _ (List.mem_cons_self _ _)
      · exact List.mem_cons_of_mem _ (List.mem_cons_of_mem _ h)

theorem bestTime_le {t : Table} {r : Row} (hr : r ∈ commonRows t) :
    bestTime t ≤ groupTime t r := by
  cases hc : commonRows t with
  | nil => rw [hc] at hr; exact absurd hr (List.not_mem_nil r)
  | cons r₀ rs =>
      have hmem : groupTime t r ∈ (groupTime t r₀) :: rs.map (groupTime t) := by
        rw [hc] at hr
        rcases List.mem_cons.mp hr with rfl | hr2
        · exact List.mem_cons_self _ _
        · exact List.mem_cons_of_mem _ (List.mem_map.mpr ⟨r, hr2, rfl⟩)
      have : bestTime t = (rs.map (groupTime t)).foldl imin (groupTime t r₀) := by
        simp [bestTime, hc]
      rw [this]
      exact foldl_imin_le _ _ _ hmem

theorem bestTime_achieved {t : Table} (h : commonRows t ≠ []) :
    ∃ r ∈ commonRows t, groupTime t r = bestTime t := by
  cases hc : commonRows t with
  | nil => exact absurd hc h
  | cons r₀ rs =>
      have hbt : bestTime t = (rs.map (groupTime t)).foldl imin (groupTime t r₀) := by
        simp [bestTime, hc]
      have hmem := foldl_imin_mem (rs.map (groupTime t)) (groupTime t r₀)
      rcases List.mem_cons.mp hmem with hm | hm
      · exact ⟨r₀, List.mem_cons_self _ _, by rw [hbt, hm]⟩
      · rcases List.mem_map.mp hm with ⟨r, hr, hgt⟩
        exact ⟨r, List.mem_cons_of_mem _ hr, by rw [hbt, ← hgt]⟩

theorem database_bests_cons {t : Table} (h : commonRows t ≠ []) :
    ∃ r₀ rest, database_bests t = r₀ :: rest ∧ r₀ ∈ commonRows t ∧
      groupTime t r₀ = bestTime t := by
  rcases bestTime_achieved h with ⟨r, hr, hgt⟩
  have hmem : r ∈ database_bests t := by
    simp only [database_bests, List.mem_filter, decide_eq_true_eq]
    exact ⟨hr, hgt⟩
  cases hb : database_bests t with
  | nil => rw [hb] at hmem; exact absurd hmem (List.not_mem_nil r)
  | cons r₀ rest =>
      have hr₀ : r₀ ∈ database_bests t := by rw [hb]; exact List.mem_cons_self _ _
      have := List.mem_filter.mp hr₀
      exact ⟨r₀, rest, rfl, this.1, by simpa using this.2⟩

theorem mem_database_bests {t : Table} {r : Row} :
    r ∈ database_bests t ↔ r ∈ commonRows t ∧ groupTime t r = bestTime t := by
  simp [database_bests, List.mem_filter]

/-- Worked-example rows: a measurement of device `dev` of vendor `vendor`
with the given numeric parameter cells and execution time. -/
def exRow (dev vendor : String) (ps : List (String × ℤ)) (tm : ℤ) : Row :=
  [("device", Val.str dev), ("device_vendor", Val.str vendor),
   ("device_type", Val.str "gpu"), ("device_compute_units", Val.num 1),
   ("device_core_clock", Val.num 1), ("kernel", Val.str "xgemm")] ++
  ps.map (fun p => (p.1, Val.num p.2)) ++ [("time", Val.num tm)]

/-- Worked-example column list with parameter columns `a` and `b`. -/
def exColsAB : List String :=
  ["device", "device_vendor", "device_type", "device_compute_units",
   "device_core_clock", "kernel", "parameters.a", "parameters.b", "time"]

/-- Worked-example column list with the single parameter column `a`. -/
def exColsA : List String :=
  ["device", "device_vendor", "device_type", "device_compute_units",
   "device_core_clock", "kernel", "parameters.a", "time"]

/-- The spec's common-best example: devices A and B share `a=1, b=2` (times 5
and 7) and A alone also has `a=1, b=3` (time 1). -/
def EX1 : Table :=
  ⟨exColsAB,
   [exRow "A" "v" [("parameters.a", 1), ("parameters.b", 2)] 5,
    exRow "B" "v" [("parameters.a", 1), ("parameters.b", 2)] 7,
    exRow "A" "v" [("parameters.a", 1), ("parameters.b", 3)] 1]⟩

/-- A group with no parameter combination shared by both devices. -/
def EX3 : Table :=
  ⟨exColsA,
   [exRow "A" "v" [("parameters.a", 1)] 1,
    exRow "B" "v" [("parameters.a", 2)] 2]⟩

/-- Two devices, two fully-shared parameter combinations whose summed times
tie (3+3 = 2+4 = 6). -/
def EX4 : Table :=
  ⟨exColsA,
   [exRow "A" "v" [("parameters.a", 1)] 3,
    exRow "B" "v" [("parameters.a", 1)] 3,
    exRow "A" "v" [("parameters.a", 2)] 2,
    exRow "B" "v" [("parameters.a", 2)] 4]⟩

/-- C10: no call path of `calculate_defaults` passes an empty group to the
best selector: every tier-1 group, the column-dropped table used by
`get_common_best`'s fallback, and every tier-2 group are nonempty. -/
theorem calculate_defaults_no_empty_group (ka aa : List String) (t : Table)
    (k : List Cell) :
    (k ∈ groupbyKeys (tier1KeyCols ka aa) t.rows →
      (groupTable t (tier1KeyCols ka aa) k).rows ≠ [] ∧
      (dropna_cols (groupTable t (tier1KeyCols ka aa) k)).rows ≠ []) ∧
    (k ∈ groupbyKeys (tier2KeyCols ka aa) t.rows →
      (groupTable t (tier2KeyCols ka aa) k).rows ≠ []) := by
  constructor
  · intro h
    have h1 : (groupTable t (tier1KeyCols ka aa) k).rows ≠ [] := groupRows_ne_nil h
    exact ⟨h1, by rwa [dropna_cols_rows]⟩
  · intro h
    exact groupRows_ne_nil h

theorem calculate_defaults_no_empty_group_witness :
    ([some (Val.str "v"), some (Val.str "gpu"), some (Val.str "xgemm")] ∈
        groupbyKeys (tier1KeyCols [] []) EX1.rows) ∧
    (groupTable EX1 (tier1KeyCols [] [])
        [some (Val.str "v"), some (Val.str "gpu"), some (Val.str "xgemm")]).rows ≠ [] := by
  refine ⟨by decide, ?_⟩
  exact ((calculate_defaults_no_empty_group [] [] EX1
    [some (Val.str "v"), some (Val.str "gpu"), some (Val.str "xgemm")]).1 (by decide)).1

/-- C3: when no parameter combination is shared by all devices of the group,
`get_common_best` returns, cell for cell, exactly `get_smallest_best` of the
group. -/
theorem get_common_best_fallback (t : Table) (h : commonRows t = []) (c : String) :
    (get_common_best t).cell c = (get_smallest_best t).cell c := by
  unfold get_common_best
  rw [if_pos h]
  have hrows : (dropna_cols t).rows = t.rows := rfl
  rw [get_smallest_best, get_smallest_best, mkSeriesF_cell, mkSeriesF_cell, hrows]
  by_cases hc1 : c ∈ (dropna_cols t).cols
  · have hc2 : c ∈ t.cols := (mem_dropna_cols.mp hc1).1
    rw [if_pos hc1, if_pos hc2]
  · rw [if_neg hc1]
    by_cases hc2 : c ∈ t.cols
    · rw [if_pos hc2]
      have hnone : ∀ r ∈ t.rows, cellOf r c = none := by
        intro r hr
        by_contra hne
        have hsome : (cellOf r c).isSome = true := by
          cases hcv : cellOf r c with
          | none => exact absurd hcv hne
          | some v => rfl
        exact hc1 (mem_dropna_cols.mpr ⟨hc2, r, hr, hsome⟩)
      symm
      refine colMinOf_eq_none.mpr ?_
      intro r hr
      exact hnone r (mem_of_mem_get_best_resultsRows hr)
    · rw [if_neg hc2]

theorem get_common_best_fallback_witness :
    commonRows EX3 = [] ∧
    (get_common_best EX3).cell "parameters.a" = (get_smallest_best EX3).cell "parameters.a" :=
  ⟨by decide, get_common_best_fallback EX3 (by decide) "parameters.a"⟩

/-- C4 counterexample: in `EX4` two distinct parameter combinations are shared
by both devices and tie for the minimal summed time, yet the deduplicated
best list has exactly one row, so the uniqueness assertion passes and the
computation is not aborted. -/
theorem common_best_tie_no_abort_cex :
    (∃ r₁ ∈ commonRows EX4, ∃ r₂ ∈ commonRows EX4,
      keyOf (commonParamCols EX4) r₁ ≠ keyOf (commonParamCols EX4) r₂ ∧
      groupTime EX4 r₁ = bestTime EX4 ∧ groupTime EX4 r₂ = bestTime EX4) ∧
    (database_bests_dedup EX4).length = 1 := by decide

/-- C4 amended: whenever any shared parameter combination exists, the
`group_time` deduplication collapses the tied minimal rows to exactly one
representative, so the assertion `len(database_bests) == 1` always passes and
`get_common_best` silently returns one tied combination instead of aborting. -/
theorem common_best_dedup_unique (t : Table) (h : commonRows t ≠ []) :
    (database_bests_dedup t).length = 1 := by
  rcases database_bests_cons h with ⟨r₀, rest, hb, hr₀, hgt₀⟩
  have hrest : ∀ x ∈ rest, groupTime t x = groupTime t r₀ := by
    intro x hx
    have hxb : x ∈ database_bests t := by rw [hb]; exact List.mem_cons_of_mem _ hx
    have := (mem_database_bests.mp hxb).2
    rw [this, hgt₀]
  have haux : ∀ xs : List Row, (∀ x ∈ xs, groupTime t x = groupTime t r₀) →
      dedupByTimeAux t [groupTime t r₀] xs = [] := by
    intro xs
    induction xs with
    | nil => intro _; rfl
    | cons y ys ih =>
        intro hall
        rw [dedupByTimeAux, if_pos]
        · exact ih (fun x hx => hall x (List.mem_cons_of_mem _ hx))
        · rw [hall y (List.mem_cons_self _ _)]
          exact List.mem_singleton.mpr rfl
  rw [database_bests_dedup, hb, dedupByTime, dedupByTimeAux,
    if_neg (List.not_mem_nil _), haux rest hrest]
  rfl

theorem common_best_dedup_unique_witness :
    commonRows EX4 ≠ [] ∧ (database_bests_dedup EX4).length = 1 :=
  ⟨by decide, common_best_dedup_unique EX4 (by decide)⟩

theorem hasParamMark_ne_group_time {c : String} (h : hasParamMark c = true) :
    c ≠ "group_time" := by
  intro hc
  rw [hc] at h
  exact absurd h (by decide)

theorem mem_commonBestCols_of_dropna {t : Table} {c : String}
    (h : c ∈ (dropna_cols t).cols) : c ∈ commonBestCols t := by
  unfold commonBestCols
  by_cases hg : "group_time" ∈ (dropna_cols t).cols
  · rw [if_pos hg]; exact h
  · rw [if_neg hg]; exact List.mem_append_left _ h

theorem database_bests_dedup_cons {t : Table} {r₀ : Row} {rest : List Row}
    (hb : database_bests t = r₀ :: rest) :
    ∃ tl, database_bests_dedup t = r₀ :: tl := by
  rw [database_bests_dedup, hb, dedupByTime, dedupByTimeAux, if_neg (List.not_mem_nil _)]
  exact ⟨_, rfl⟩

theorem get_common_best_eq_of_dedup {t : Table} {r₀ : Row} {tl : List Row}
    (hne : ¬commonRows t = []) (hdedup : database_bests_dedup t = r₀ :: tl) :
    get_common_best t = mkSeriesF (commonBestCols t)
      (fun c => if c = "group_time" then some (Val.num (bestTime t)) else cellOf r₀ c) := by
  unfold get_common_best
  rw [if_neg hne, hdedup]

/-- C1: `get_common_best` keeps exactly the rows whose parameter combination
has as many rows as there are distinct devices in the group, and (when any
such row exists) the returned series carries, on every parameter column, the
cells of a kept row whose summed execution time (`groupTime`) is minimal among
all kept rows. -/
theorem get_common_best_selects_min_shared (t : Table) (hne : commonRows t ≠ []) :
    (∀ r, r ∈ commonRows t ↔ r ∈ t.rows ∧ hasKey (commonParamCols t) r = true ∧
      (groupRows (commonParamCols t) (keyOf (commonParamCols t) r) t.rows).length =
        numDevices t) ∧
    ∃ r₀ ∈ commonRows t,
      (∀ r ∈ commonRows t, groupTime t r₀ ≤ groupTime t r) ∧
      ∀ c ∈ commonParamCols t, (get_common_best t).cell c = cellOf r₀ c := by
  constructor
  · intro r
    simp [commonRows, List.mem_filter, and_assoc]
  · rcases database_bests_cons hne with ⟨r₀, rest, hb, hr₀, hgt₀⟩
    rcases database_bests_dedup_cons hb with ⟨tl, hdedup⟩
    refine ⟨r₀, hr₀, ?_, ?_⟩
    · intro r hr
      rw [hgt₀]
      exact bestTime_le hr
    · intro c hc
      have hcc := List.mem_filter.mp hc
      have hcols : c ∈ commonBestCols t := mem_commonBestCols_of_dropna hcc.1
      rw [get_common_best_eq_of_dedup hne hdedup, mkSeriesF_cell, if_pos hcols,
        if_neg (hasParamMark_ne_group_time hcc.2)]

theorem get_common_best_selects_min_shared_witness :
    commonRows EX1 ≠ [] ∧
    ((∀ r, r ∈ commonRows EX1 ↔ r ∈ EX1.rows ∧
        hasKey (commonParamCols EX1) r = true ∧
        (groupRows (commonParamCols EX1) (keyOf (commonParamCols EX1) r) EX1.rows).length =
          numDevices EX1) ∧
      ∃ r₀ ∈ commonRows EX1,
        (∀ r ∈ commonRows EX1, groupTime EX1 r₀ ≤ groupTime EX1 r) ∧
        ∀ c ∈ commonParamCols EX1, (get_common_best EX1).cell c = cellOf r₀ c) ∧
    (get_common_best EX1).cell "parameters.a" = some (Val.num 1) ∧
    (get_common_best EX1).cell "parameters.b" = some (Val.num 2) :=
  ⟨by decide, get_common_best_selects_min_shared EX1 (by decide), by decide, by decide⟩

/-- Two devices whose best rows pair `a=1` with `b=2` and `a=2` with `b=1`:
the column-wise minimum `a=1, b=1` occurs in no measured row. -/
def EX2 : Table :=
  ⟨exColsAB,
   [exRow "A" "v" [("parameters.a", 1), ("parameters.b", 2)] 1,
    exRow "B" "v" [("parameters.a", 2), ("parameters.b", 1)] 1]⟩

/-- C2: each cell of `get_smallest_best` is, independently per column, the
minimum over that column of the best-selector's per-device best rows: a lower
bound, attained, and `NaN` exactly on empty columns; on the concrete group
`EX2` it pairs parameter values that co-occur in no measured row. -/
theorem get_smallest_best_columnwise_min (t : Table) (c : String) (hc : c ∈ t.cols) :
    (∀ r ∈ (get_best_results t).rows, ∀ v, cellOf r c = some v →
      ∃ w, (get_smallest_best t).cell c = some w ∧ Val.le w v = true) ∧
    (∀ w, (get_smallest_best t).cell c = some w →
      ∃ r ∈ (get_best_results t).rows, cellOf r c = some w) ∧
    ((get_smallest_best t).cell c = none →
      ∀ r ∈ (get_best_results t).rows, cellOf r c = none) ∧
    (∀ r ∈ EX2.rows, ¬(cellOf r "parameters.a" = some (Val.num 1) ∧
        cellOf r "parameters.b" = some (Val.num 1))) ∧
    (get_smallest_best EX2).cell "parameters.a" = some (Val.num 1) ∧
    (get_smallest_best EX2).cell "parameters.b" = some (Val.num 1) := by
  have hcell : (get_smallest_best t).cell c = colMinOf (get_best_resultsRows t.rows) c := by
    rw [get_smallest_best, mkSeriesF_cell, if_pos hc]
  refine ⟨?_, ?_, ?_, by decide, by decide, by decide⟩
  · intro r hr v hv
    rw [hcell]
    exact colMinOf_le hr hv
  · intro w hw
    rw [hcell] at hw
    exact colMinOf_mem hw
  · intro hnone
    rw [hcell] at hnone
    exact colMinOf_eq_none.mp hnone

theorem get_smallest_best_columnwise_min_witness :
    ("time" ∈ EX2.cols) ∧
    ((get_smallest_best EX2).cell "time" = none →
      ∀ r ∈ (get_best_results EX2).rows, cellOf r "time" = none) :=
  ⟨by decide, (get_smallest_best_columnwise_min EX2 "time" (by decide)).2.2.1⟩

theorem stamped_cell_device (s : Series) :
    cellOf (set_default_time (set_default_device s)).val "device" =
      some (Val.str DEVICE_NAME_DEFAULT) := by
  simp [set_default_time, set_default_device, seriesSet, cellOf_cons]

theorem stamped_cell_units (s : Series) :
    cellOf (set_default_time (set_default_device s)).val "device_compute_units" =
      some (Val.num 0) := by
  simp [set_default_time, set_default_device, seriesSet, cellOf_cons]

theorem stamped_cell_clock (s : Series) :
    cellOf (set_default_time (set_default_device s)).val "device_core_clock" =
      some (Val.num 0) := by
  simp [set_default_time, set_default_device, seriesSet, cellOf_cons]

theorem stamped_cell_time (s : Series) :
    cellOf (set_default_time (set_default_device s)).val "time" = some (Val.num 0) := by
  simp [set_default_time, set_default_device, seriesSet, cellOf_cons]

theorem stamped_cell_frame (s : Series) (c : String) (h1 : c ≠ "device")
    (h2 : c ≠ "device_compute_units") (h3 : c ≠ "device_core_clock") (h4 : c ≠ "time") :
    cellOf (set_default_time (set_default_device s)).val c = s.cell c := by
  have g1 : ¬("device" = c) := fun h => h1 h.symm
  have g2 : ¬("device_compute_units" = c) := fun h => h2 h.symm
  have g3 : ¬("device_core_clock" = c) := fun h => h3 h.symm
  have g4 : ¬("time" = c) := fun h => h4 h.symm
  simp [set_default_time, set_default_device, seriesSet, cellOf_cons, Series.cell,
    g1, g2, g3, g4]

/-- The output rows of `calculate_defaults` are the tier-1 series followed by
the tier-2 series, one per group key. -/
theorem calculate_defaults_rows_eq (ka aa : List String) (t : Table) (ccb : Bool) :
    (calculate_defaults ka aa t ccb).rows =
      (groupbyKeys (tier1KeyCols ka aa) t.rows).map
        (fun k => (tier1Series ka aa t ccb k).val) ++
      (groupbyKeys (tier2KeyCols ka aa) t.rows).map
        (fun k => (tier2Series ka aa t k).val) := by
  rw [calculate_defaults, appendAll_rows, tier1_table, appendAll_rows]
  rw [List.map_map, List.map_map]
  rfl

/-- C5: the output rows are exactly the stamped tier-1 and tier-2 series; on
every tier-1 series the device name, compute units, core clock and time hold
the sentinel values and every other column holds the strategy's cell; every
tier-2 series additionally holds the sentinel vendor and device type, all
other columns holding `get_smallest_best`'s cell. -/
theorem calculate_defaults_sentinel_stamping (ka aa : List String) (t : Table) (ccb : Bool) :
    (calculate_defaults ka aa t ccb).rows =
      (groupbyKeys (tier1KeyCols ka aa) t.rows).map
        (fun k => (tier1Series ka aa t ccb k).val) ++
      (groupbyKeys (tier2KeyCols ka aa) t.rows).map
        (fun k => (tier2Series ka aa t k).val) ∧
    (∀ k, cellOf (tier1Series ka aa t ccb k).val "device" =
        some (Val.str DEVICE_NAME_DEFAULT) ∧
      cellOf (tier1Series ka aa t ccb k).val "device_compute_units" = some (Val.num 0) ∧
      cellOf (tier1Series ka aa t ccb k).val "device_core_clock" = some (Val.num 0) ∧
      cellOf (tier1Series ka aa t ccb k).val "time" = some (Val.num 0) ∧
      ∀ c, c ≠ "device" → c ≠ "device_compute_units" → c ≠ "device_core_clock" →
        c ≠ "time" →
        cellOf (tier1Series ka aa t ccb k).val c =
          (if ccb then get_common_best (groupTable t (tier1KeyCols ka aa) k)
           else get_smallest_best (groupTable t (tier1KeyCols ka aa) k)).cell c) ∧
    (∀ k, cellOf (tier2Series ka aa t k).val "device" =
        some (Val.str DEVICE_NAME_DEFAULT) ∧
      cellOf (tier2Series ka aa t k).val "device_compute_units" = some (Val.num 0) ∧
      cellOf (tier2Series ka aa t k).val "device_core_clock" = some (Val.num 0) ∧
      cellOf (tier2Series ka aa t k).val "time" = some (Val.num 0) ∧
      cellOf (tier2Series ka aa t k).val "device_vendor" =
        some (Val.str VENDOR_DEFAULT) ∧
      cellOf (tier2Series ka aa t k).val "device_type" =
        some (Val.str DEVICE_TYPE_DEFAULT) ∧
      ∀ c, c ≠ "device" → c ≠ "device_compute_units" → c ≠ "device_core_clock" →
        c ≠ "time" → c ≠ "device_vendor" → c ≠ "device_type" →
        cellOf (tier2Series ka aa t k).val c =
          (get_smallest_best (groupTable t (tier2KeyCols ka aa) k)).cell c) := by
  refine ⟨calculate_defaults_rows_eq ka aa t ccb, ?_, ?_⟩
  · intro k
    refine ⟨stamped_cell_device _, stamped_cell_units _, stamped_cell_clock _,
      stamped_cell_time _, ?_⟩
    intro c h1 h2 h3 h4
    exact stamped_cell_frame _ c h1 h2 h3 h4
  · intro k
    refine ⟨stamped_cell_device _, stamped_cell_units _, stamped_cell_clock _,
      stamped_cell_time _, ?_, ?_, ?_⟩
    · rw [tier2Series, stamped_cell_frame _ _ (by decide) (by decide) (by decide) (by decide)]
      simp [seriesSet_cell]
    · rw [tier2Series, stamped_cell_frame _ _ (by decide) (by decide) (by decide) (by decide)]
      simp [seriesSet_cell]
    · intro c h1 h2 h3 h4 h5 h6
      rw [tier2Series, stamped_cell_frame _ _ h1 h2 h3 h4]
      have g5 : ¬("device_vendor" = c) := fun h => h5 h.symm
      have g6 : ¬("device_type" = c) := fun h => h6 h.symm
      simp [seriesSet_cell, g5, g6]

/-- First group key of the worked example `EX1`. -/
def K1 : List Cell := [some (Val.str "v"), some (Val.str "gpu"), some (Val.str "xgemm")]

theorem calculate_defaults_sentinel_stamping_witness :
    cellOf (tier1Series [] [] EX1 true K1).val "device" =
      some (Val.str DEVICE_NAME_DEFAULT) ∧
    cellOf (tier1Series [] [] EX1 true K1).val "parameters.a" =
      (get_common_best (groupTable EX1 (tier1KeyCols [] []) K1)).cell "parameters.a" := by
  have h := calculate_defaults_sentinel_stamping [] [] EX1 true
  refine ⟨(h.2.1 K1).1, ?_⟩
  have h2 := (h.2.1 K1).2.2.2.2 "parameters.a" (by decide) (by decide) (by decide) (by decide)
  simpa using h2

theorem length_filterMap_ite {α β : Type} (l : List α) (p : α → Prop) [DecidablePred p]
    (f : α → β) :
    (l.filterMap (fun x => if p x then some (f x) else none)).length =
      (l.filter (fun x => decide (p x))).length := by
  induction l with
  | nil => rfl
  | cons x xs ih =>
      by_cases h : p x
      · simp only [List.filterMap_cons, List.filter_cons, if_pos h, decide_eq_true h]
        simpa using ih
      · simp only [List.filterMap_cons, List.filter_cons, if_neg h,
          decide_eq_false h]
        simpa using ih

theorem colMinOf_const_str {g : List Row} {c : String} {v : String} (hne : g ≠ [])
    (h : ∀ r ∈ g, cellOf r c = some (Val.str v)) : cellString (colMinOf g c) = v := by
  rw [colMinOf_const hne h]
  rfl

/-- C7: after tier 1 and before tier 2, the tier-1 rows are grouped by the
device-type/vendor attributes, kernel attributes and kernel name; the number
of warnings equals the number of groups with more than one row, each such
group contributes the warning naming its kernel and device vendor, and every
tier-1 row is kept in the final output. -/
theorem calculate_defaults_warning_pass (ka aa : List String) (t : Table) (ccb : Bool) :
    (calculate_defaults_warnings ka aa t ccb).length =
      ((groupbyKeys (warnKeyCols ka) (tier1_table ka aa t ccb).rows).filter
        (fun k => decide (1 <
          (groupRows (warnKeyCols ka) k (tier1_table ka aa t ccb).rows).length))).length ∧
    (∀ k ∈ groupbyKeys (warnKeyCols ka) (tier1_table ka aa t ccb).rows,
      1 < (groupRows (warnKeyCols ka) k (tier1_table ka aa t ccb).rows).length →
      ∀ kern ven : String,
        (∀ r ∈ groupRows (warnKeyCols ka) k (tier1_table ka aa t ccb).rows,
          cellOf r "kernel" = some (Val.str kern) ∧
          cellOf r "device_vendor" = some (Val.str ven)) →
        (kern ++ " " ++ ven) ∈ calculate_defaults_warnings ka aa t ccb) ∧
    (∀ r ∈ (tier1_table ka aa t ccb).rows, r ∈ (calculate_defaults ka aa t ccb).rows) := by
  refine ⟨?_, ?_, ?_⟩
  · rw [calculate_defaults_warnings,
      length_filterMap_ite _
        (fun k => (groupRows (warnKeyCols ka) k (tier1_table ka aa t ccb).rows).length ≠ 1)]
    apply congrArg
    apply List.filter_congr
    intro k hk
    have hne := groupRows_ne_nil hk
    have hlen : (groupRows (warnKeyCols ka) k (tier1_table ka aa t ccb).rows).length ≠ 0 := by
      simpa [List.length_eq_zero] using hne
    apply decide_eq_decide.mpr
    omega
  · intro k hk hlen kern ven hcst
    rw [calculate_defaults_warnings]
    refine List.mem_filterMap.mpr ⟨k, hk, ?_⟩
    have hne1 : (groupRows (warnKeyCols ka) k (tier1_table ka aa t ccb).rows).length ≠ 1 := by
      omega
    rw [if_pos hne1]
    have hne := groupRows_ne_nil hk
    rw [mismatchDescription,
      colMinOf_const_str hne (fun r hr => (hcst r hr).1),
      colMinOf_const_str hne (fun r hr => (hcst r hr).2)]
  · intro r hr
    rw [calculate_defaults, appendAll_rows]
    exact List.mem_append_left _ hr

/-- Two measurements of one device, vendor and kernel that differ only in the
argument attribute `arg_m`: the two tier-1 default rows then share the
device-type/vendor/kernel warning key. -/
def EXW : Table :=
  ⟨["device", "device_vendor", "device_type", "device_compute_units",
    "device_core_clock", "kernel", "arg_m", "parameters.a", "time"],
   [exRow "A" "v" [("arg_m", 1), ("parameters.a", 1)] 1,
    exRow "A" "v" [("arg_m", 2), ("parameters.a", 2)] 1]⟩

theorem calculate_defaults_warning_pass_witness :
    ("xgemm" ++ " " ++ "v") ∈ calculate_defaults_warnings [] ["arg_m"] EXW false := by
  have h := calculate_defaults_warning_pass [] ["arg_m"] EXW false
  exact h.2.1 K1 (by decide) (by decide) "xgemm" "v" (by decide)

/-- C8: the output is the row-wise concatenation of exactly one tier-1 row
per tier-1 group key and exactly one tier-2 row per tier-2 group key (the key
lists have no duplicates and the lengths add), with no deduplication between
the tiers; the tier-2 block is computed by `tier2Series` (which applies
`get_smallest_best` only) and is therefore identical for both values of the
`calculate_common_best` flag. -/
theorem calculate_defaults_concat_structure (ka aa : List String) (t : Table) (ccb : Bool) :
    (calculate_defaults ka aa t ccb).rows =
      (groupbyKeys (tier1KeyCols ka aa) t.rows).map
        (fun k => (tier1Series ka aa t ccb k).val) ++
      (groupbyKeys (tier2KeyCols ka aa) t.rows).map
        (fun k => (tier2Series ka aa t k).val) ∧
    (groupbyKeys (tier1KeyCols ka aa) t.rows).Nodup ∧
    (groupbyKeys (tier2KeyCols ka aa) t.rows).Nodup ∧
    (calculate_defaults ka aa t ccb).rows.length =
      (groupbyKeys (tier1KeyCols ka aa) t.rows).length +
      (groupbyKeys (tier2KeyCols ka aa) t.rows).length ∧
    (calculate_defaults ka aa t true).rows.drop
        (groupbyKeys (tier1KeyCols ka aa) t.rows).length =
      (calculate_defaults ka aa t false).rows.drop
        (groupbyKeys (tier1KeyCols ka aa) t.rows).length := by
  have hdrop : ∀ b : Bool, (calculate_defaults ka aa t b).rows.drop
      (groupbyKeys (tier1KeyCols ka aa) t.rows).length =
      (groupbyKeys (tier2KeyCols ka aa) t.rows).map (fun k => (tier2Series ka aa t k).val) := by
    intro b
    rw [calculate_defaults_rows_eq]
    rw [← List.length_map (groupbyKeys (tier1KeyCols ka aa) t.rows)
      (fun k => (tier1Series ka aa t b k).val)]
    exact List.drop_left _ _
  refine ⟨calculate_defaults_rows_eq ka aa t ccb, groupbyKeys_nodup _ _,
    groupbyKeys_nodup _ _, ?_, ?_⟩
  · rw [calculate_defaults_rows_eq]
    simp
  · rw [hdrop true, hdrop false]

theorem seriesSet_cols_of_mem {s : Series} {c : String} (v : Val) (h : c ∈ s.cols) :
    (seriesSet s c v).cols = s.cols := by
  simp [seriesSet, h]

theorem append1_cols_of_eq {t : Table} {s : Series} (h : s.cols = t.cols) :
    (t.append1 s).cols = t.cols := by
  have hfil : s.cols.filter (fun c => decide (c ∉ t.cols)) = [] := by
    refine List.filter_eq_nil_iff.mpr ?_
    intro a ha
    rw [h] at ha
    simp [ha]
  show t.cols ++ s.cols.filter (fun c => decide (c ∉ t.cols)) = t.cols
  rw [hfil]
  exact List.append_nil _

theorem append1_cols_of_nil {t : Table} {s : Series} (h : t.cols = []) :
    (t.append1 s).cols = s.cols := by
  have : s.cols.filter (fun c => decide (c ∉ t.cols)) = s.cols := by
    refine List.filter_eq_self.mpr ?_
    intro a _
    simp [h]
  simp [Table.append1, h, this]

theorem appendAll_cols_of_const (C : List String) :
    ∀ (ss : List Series) (init : Table), (∀ s ∈ ss, s.cols = C) → init.cols = C →
      (appendAll init ss).cols = C := by
  intro ss
  induction ss with
  | nil => intro init _ hinit; exact hinit
  | cons s ss ih =>
      intro init hss hinit
      have hstep : appendAll init (s :: ss) = appendAll (init.append1 s) ss := rfl
      rw [hstep]
      refine ih _ (fun s2 hs2 => hss s2 (List.mem_cons_of_mem _ hs2)) ?_
      rw [append1_cols_of_eq]
      · exact hinit
      · rw [hinit, hss s (List.mem_cons_self _ _)]

theorem appendAll_cols_start (C : List String) (ss : List Series) (init : Table)
    (hne : ss ≠ []) (hss : ∀ s ∈ ss, s.cols = C)
    (hinit : init.cols = [] ∨ init.cols = C) :
    (appendAll init ss).cols = C := by
  rcases hinit with h | h
  · cases ss with
    | nil => exact absurd rfl hne
    | cons s ss2 =>
        have hstep : appendAll init (s :: ss2) = appendAll (init.append1 s) ss2 := rfl
        rw [hstep]
        refine appendAll_cols_of_const C ss2 _
          (fun s2 hs2 => hss s2 (List.mem_cons_of_mem _ hs2)) ?_
        rw [append1_cols_of_nil h]
        exact hss s (List.mem_cons_self _ _)
  · exact appendAll_cols_of_const C ss init hss h

theorem seriesSet_cols_pres {s : Series} {c : String} {v : Val} {C : List String}
    (hs : s.cols = C) (hc : c ∈ C) : (seriesSet s c v).cols = C := by
  rw [seriesSet_cols_of_mem v (hs.symm ▸ hc)]
  exact hs

theorem tier2Series_cols (ka aa : List String) (t : Table) (k : List Cell)
    (hschema : ∀ c ∈ DEVICE_ATTRIBUTES ++ ["time"], c ∈ t.cols) :
    (tier2Series ka aa t k).cols = t.cols := by
  have hv : "device_vendor" ∈ t.cols := hschema _ (by decide)
  have hty : "device_type" ∈ t.cols := hschema _ (by decide)
  have hd : "device" ∈ t.cols := hschema _ (by decide)
  have hu : "device_compute_units" ∈ t.cols := hschema _ (by decide)
  have hcl : "device_core_clock" ∈ t.cols := hschema _ (by decide)
  have htm : "time" ∈ t.cols := hschema _ (by decide)
  rw [tier2Series, set_default_time, set_default_device]
  exact seriesSet_cols_pres (seriesSet_cols_pres (seriesSet_cols_pres
    (seriesSet_cols_pres (seriesSet_cols_pres (seriesSet_cols_pres rfl hv) hty) hd)
    hu) hcl) htm

theorem tier1Series_false_cols (ka aa : List String) (t : Table) (k : List Cell)
    (hschema : ∀ c ∈ DEVICE_ATTRIBUTES ++ ["time"], c ∈ t.cols) :
    (tier1Series ka aa t false k).cols = t.cols := by
  have hd : "device" ∈ t.cols := hschema _ (by decide)
  have hu : "device_compute_units" ∈ t.cols := hschema _ (by decide)
  have hcl : "device_core_clock" ∈ t.cols := hschema _ (by decide)
  have htm : "time" ∈ t.cols := hschema _ (by decide)
  rw [tier1Series, set_default_time, set_default_device]
  exact seriesSet_cols_pres (seriesSet_cols_pres (seriesSet_cols_pres
    (seriesSet_cols_pres rfl hd) hu) hcl) htm

theorem mem_get_common_best_cols (g : Table) {x : String}
    (hx : x ∈ (get_common_best g).cols) : x ∈ g.cols ∨ x = "group_time" := by
  unfold get_common_best at hx
  by_cases h : commonRows g = []
  · rw [if_pos h] at hx
    exact Or.inl (List.mem_of_mem_filter hx)
  · rw [if_neg h] at hx
    have hx2 : x ∈ commonBestCols g := by
      cases hd : database_bests_dedup g with
      | nil => rw [hd] at hx; exact hx
      | cons r0 tl => rw [hd] at hx; exact hx
    unfold commonBestCols at hx2
    by_cases hg : "group_time" ∈ (dropna_cols g).cols
    · rw [if_pos hg] at hx2
      exact Or.inl (List.mem_of_mem_filter hx2)
    · rw [if_neg hg] at hx2
      rcases List.mem_append.mp hx2 with h2 | h2
      · exact Or.inl (List.mem_of_mem_filter h2)
      · exact Or.inr (List.mem_singleton.mp h2)

theorem mem_seriesSet_cols_sub {s : Series} {c : String} {v : Val} {P : String → Prop}
    (hsub : ∀ y ∈ s.cols, P y) (hc : P c) : ∀ y ∈ (seriesSet s c v).cols, P y := by
  intro y hy
  rcases (seriesSet_cols_mem s c v y).mp hy with h | rfl
  · exact hsub y h
  · exact hc

theorem mem_tier1Series_cols (ka aa : List String) (t : Table) (ccb : Bool) (k : List Cell)
    (hschema : ∀ c ∈ DEVICE_ATTRIBUTES ++ ["time"], c ∈ t.cols) :
    ∀ x ∈ (tier1Series ka aa t ccb k).cols, x ∈ t.cols ∨ x = "group_time" := by
  have hbase : ∀ x ∈ (if ccb then get_common_best (groupTable t (tier1KeyCols ka aa) k)
      else get_smallest_best (groupTable t (tier1KeyCols ka aa) k)).cols,
      x ∈ t.cols ∨ x = "group_time" := by
    cases ccb with
    | true =>
        intro x hx
        rw [if_pos rfl] at hx
        exact mem_get_common_best_cols (groupTable t (tier1KeyCols ka aa) k) hx
    | false =>
        intro x hx
        rw [if_neg Bool.false_ne_true] at hx
        exact Or.inl hx
  rw [tier1Series, set_default_time, set_default_device]
  exact mem_seriesSet_cols_sub (mem_seriesSet_cols_sub (mem_seriesSet_cols_sub
    (mem_seriesSet_cols_sub hbase (Or.inl (hschema _ (by decide))))
    (Or.inl (hschema _ (by decide)))) (Or.inl (hschema _ (by decide))))
    (Or.inl (hschema _ (by decide)))

/-- C6 counterexample: `calculate_defaults` with the common-best strategy on
the spec's own example group outputs a `group_time` column absent from the
input, so the output column set differs from the input's. -/
theorem calculate_defaults_adds_group_time_cex :
    "group_time" ∈ (calculate_defaults [] [] EX1 true).cols ∧
    "group_time" ∉ EX1.cols := by decide

/-- C6 amended: for inputs whose schema contains the device-identity and time
columns and which have at least one tier-2 group, the output of
`calculate_defaults` without common best has exactly the input's columns,
and with common best its columns are the input's columns except that the
extra column `group_time` may appear. -/
theorem calculate_defaults_columns_amended (ka aa : List String) (t : Table)
    (hschema : ∀ c ∈ DEVICE_ATTRIBUTES ++ ["time"], c ∈ t.cols)
    (hkeys : groupbyKeys (tier2KeyCols ka aa) t.rows ≠ []) :
    (calculate_defaults ka aa t false).cols = t.cols ∧
    (∀ x ∈ (calculate_defaults ka aa t true).cols, x ∈ t.cols ∨ x = "group_time") ∧
    (∀ x ∈ t.cols, x ∈ (calculate_defaults ka aa t true).cols) := by
  refine ⟨?_, ?_, ?_⟩
  · rw [calculate_defaults]
    refine appendAll_cols_start t.cols _ _ ?_ ?_ ?_
    · intro hmap
      exact hkeys (List.map_eq_nil_iff.mp hmap)
    · intro s hs
      rcases List.mem_map.mp hs with ⟨k, _, rfl⟩
      exact tier2Series_cols ka aa t k hschema
    · rw [tier1_table]
      cases hk1 : groupbyKeys (tier1KeyCols ka aa) t.rows with
      | nil => exact Or.inl rfl
      | cons k ks =>
          refine Or.inr (appendAll_cols_start t.cols _ _ (by simp) ?_ (Or.inl rfl))
          intro s hs
          rcases List.mem_map.mp hs with ⟨k2, _, rfl⟩
          exact tier1Series_false_cols ka aa t k2 hschema
  · intro x hx
    rw [calculate_defaults] at hx
    rcases mem_appendAll_cols.mp hx with h | ⟨s, hs, hxs⟩
    · rw [tier1_table] at h
      rcases mem_appendAll_cols.mp h with h2 | ⟨s, hs, hxs⟩
      · exact absurd h2 (List.not_mem_nil x)
      · rcases List.mem_map.mp hs with ⟨k, _, rfl⟩
        exact mem_tier1Series_cols ka aa t true k hschema x hxs
    · rcases List.mem_map.mp hs with ⟨k, _, rfl⟩
      rw [tier2Series_cols ka aa t k hschema] at hxs
      exact Or.inl hxs
  · intro x hx
    cases hk : groupbyKeys (tier2KeyCols ka aa) t.rows with
    | nil => exact absurd hk hkeys
    | cons k0 ks =>
        rw [calculate_defaults]
        refine mem_appendAll_cols.mpr (Or.inr ⟨tier2Series ka aa t k0, ?_, ?_⟩)
        · rw [hk]
          exact List.mem_map.mpr ⟨k0, List.mem_cons_self _ _, rfl⟩
        · rw [tier2Series_cols ka aa t k0 hschema]
          exact hx

theorem calculate_defaults_columns_amended_witness :
    (∀ c ∈ DEVICE_ATTRIBUTES ++ ["time"], c ∈ EX1.cols) ∧
    (groupbyKeys (tier2KeyCols [] []) EX1.rows ≠ []) ∧
    (calculate_defaults [] [] EX1 false).cols = EX1.cols :=
  ⟨by decide, by decide,
   (calculate_defaults_columns_amended [] [] EX1 (by decide) (by decide)).1⟩

/-- Under the common-best strategy, device A measured `a=1` (time 10) and
`a=5` (time 2), device B `a=1` (time 10) and `a=9` (time 3): tier 1 keeps the
shared combination `a=1` while tier 2's column-wise minimum keeps `a=5`. -/
def EX9 : Table :=
  ⟨exColsA,
   [exRow "A" "v" [("parameters.a", 1)] 10,
    exRow "A" "v" [("parameters.a", 5)] 2,
    exRow "B" "v" [("parameters.a", 1)] 10,
    exRow "B" "v" [("parameters.a", 9)] 3]⟩

/-- C9 counterexample: running `calculate_defaults` (common best) on its own
output does not reproduce the same set of default rows, already on the input
columns alone: the second run's tier-2 row takes the minimum over the tier-1
default (`a=1`) and the old tier-2 default (`a=5`) and yields a new row. -/
theorem calculate_defaults_not_idempotent_cex :
    sameRowSetOn exColsA
      (calculate_defaults [] [] EX9 true).rows
      (calculate_defaults [] [] (calculate_defaults [] [] EX9 true) true).rows = false := by
  decide

theorem flatten_map_singleton {α : Type} : ∀ (l : List α),
    (l.map (fun x => [x])).flatten = l
  | [] => rfl
  | x :: xs => by
      simp only [List.map_cons, List.flatten_cons, List.singleton_append]
      rw [flatten_map_singleton xs]

theorem colMinOf_singleton (r : Row) (c : String) : colMinOf [r] c = cellOf r c := by
  cases h : cellOf r c with
  | none => simp [colMinOf, h]
  | some v => simp [colMinOf, h]

theorem cellLe_refl (m : Cell) : cellLe m m = true := by
  cases m with
  | none => rfl
  | some v => simpa [cellLe] using Val.le_refl v

theorem colMinOf_char {rows : List Row} {c : String} {m : Cell}
    (hmem : ∃ r ∈ rows, cellOf r c = m) (hub : ∀ r ∈ rows, cellLe m (cellOf r c) = true) :
    colMinOf rows c = m := by
  cases m with
  | none =>
      refine colMinOf_eq_none.mpr ?_
      intro r hr
      have := hub r hr
      cases hc : cellOf r c with
      | none => rfl
      | some v => rw [hc] at this; exact absurd this (by simp [cellLe])
  | some w =>
      refine colMinOf_eq_of_le hmem ?_
      intro r hr v hv
      have := hub r hr
      rw [hv] at this
      simpa [cellLe] using this

theorem firstKeysAux_of_nodup : ∀ (l : List (List Cell)) (seen : List (List Cell)),
    l.Nodup → (∀ x ∈ l, x ∉ seen) → firstKeysAux seen l = l := by
  intro l
  induction l with
  | nil => intro seen _ _; rfl
  | cons x xs ih =>
      intro seen hnd hdis
      rw [firstKeysAux, if_neg (hdis x (List.mem_cons_self _ _))]
      rw [ih (x :: seen) (List.nodup_cons.mp hnd).2]
      intro y hy
      intro hmem
      rcases List.mem_cons.mp hmem with rfl | h2
      · exact (List.nodup_cons.mp hnd).1 hy
      · exact hdis y (List.mem_cons_of_mem _ hy) h2

theorem firstKeys_of_nodup {l : List (List Cell)} (h : l.Nodup) : firstKeys l = l :=
  firstKeysAux_of_nodup l [] h (fun x _ => List.not_mem_nil x)

theorem groupbyKeys_of_valid_nodup {kcols : List String} {rows : List Row}
    (hval : ∀ r ∈ rows, hasKey kcols r = true)
    (hnd : (rows.map (keyOf kcols)).Nodup) :
    groupbyKeys kcols rows = rows.map (keyOf kcols) := by
  rw [groupbyKeys, List.filter_eq_self.mpr hval, firstKeys_of_nodup hnd]

theorem groupRows_singleton {kcols : List String} {rows : List Row} {ρ : Row}
    (hρ : ρ ∈ rows) (hval : ∀ r ∈ rows, hasKey kcols r = true)
    (hnd : (rows.map (keyOf kcols)).Nodup) :
    groupRows kcols (keyOf kcols ρ) rows = [ρ] := by
  induction rows with
  | nil => exact absurd hρ (List.not_mem_nil ρ)
  | cons r rs ih =>
      have hnd2 : keyOf kcols r ∉ rs.map (keyOf kcols) ∧ (rs.map (keyOf kcols)).Nodup :=
        List.nodup_cons.mp hnd
      by_cases hr : r = ρ
      · subst hr
        rw [groupRows, List.filter_cons]
        have hcond : (hasKey kcols r && decide (keyOf kcols r = keyOf kcols r)) = true := by
          simp [hval r (List.mem_cons_self _ _)]
        rw [if_pos hcond]
        have hrest : rs.filter
            (fun x => hasKey kcols x && decide (keyOf kcols x = keyOf kcols r)) = [] := by
          refine List.filter_eq_nil_iff.mpr ?_
          intro x hx
          have hne : keyOf kcols x ≠ keyOf kcols r := by
            intro he
            exact hnd2.1 (he ▸ List.mem_map.mpr ⟨x, hx, rfl⟩)
          simp [hne]
        rw [hrest]
      · have hρ2 : ρ ∈ rs := by
          rcases List.mem_cons.mp hρ with h | h
          · exact absurd h.symm hr
          · exact h
        have hne : keyOf kcols r ≠ keyOf kcols ρ := by
          intro he
          exact hnd2.1 (he ▸ List.mem_map.mpr ⟨ρ, hρ2, rfl⟩)
        rw [groupRows, List.filter_cons]
        have hcond : (hasKey kcols r && decide (keyOf kcols r = keyOf kcols ρ)) = false := by
          simp [hne]
        rw [if_neg (by simp [hcond])]
        exact ih hρ2 (fun x hx => hval x (List.mem_cons_of_mem _ hx)) hnd2.2

theorem mem_get_best_resultsRows_iff {rows : List Row} {r : Row} :
    r ∈ get_best_resultsRows rows ↔
      r ∈ rows ∧ hasKey DEVICE_ATTRIBUTES r = true ∧
      cellOf r "time" =
        colMinOf (groupRows DEVICE_ATTRIBUTES (keyOf DEVICE_ATTRIBUTES r) rows) "time" := by
  constructor
  · intro h
    rcases List.mem_flatten.mp h with ⟨l, hl, hrl⟩
    rcases List.mem_map.mp hl with ⟨k, hk, rfl⟩
    have h2 := List.mem_filter.mp hrl
    have h3 := mem_groupRows.mp h2.1
    have hkey : keyOf DEVICE_ATTRIBUTES r = k := h3.2.2
    refine ⟨h3.1, h3.2.1, ?_⟩
    rw [hkey]
    simpa using h2.2
  · rintro ⟨hr, hkey, htime⟩
    have hk : keyOf DEVICE_ATTRIBUTES r ∈ groupbyKeys DEVICE_ATTRIBUTES rows :=
      mem_groupbyKeys.mpr ⟨r, hr, hkey, rfl⟩
    refine List.mem_flatten.mpr ⟨_, List.mem_map.mpr ⟨keyOf DEVICE_ATTRIBUTES r, hk, rfl⟩, ?_⟩
    refine List.mem_filter.mpr ⟨mem_groupRows.mpr ⟨hr, hkey, rfl⟩, ?_⟩
    simpa using htime

theorem get_best_resultsRows_of_distinct {rows : List Row}
    (hval : ∀ r ∈ rows, hasKey DEVICE_ATTRIBUTES r = true)
    (hnd : (rows.map (keyOf DEVICE_ATTRIBUTES)).Nodup) :
    get_best_resultsRows rows = rows := by
  rw [get_best_resultsRows, groupbyKeys_of_valid_nodup hval hnd]
  rw [List.map_map]
  have hmap : ∀ ρ ∈ rows, ((fun k =>
      (groupRows DEVICE_ATTRIBUTES k rows).filter (fun r =>
        decide (cellOf r "time" = colMinOf (groupRows DEVICE_ATTRIBUTES k rows) "time"))) ∘
      keyOf DEVICE_ATTRIBUTES) ρ = [ρ] := by
    intro ρ hρ
    have hsing := groupRows_singleton hρ hval hnd
    simp only [Function.comp]
    rw [hsing, colMinOf_singleton]
    simp
  rw [List.map_congr_left hmap]
  exact flatten_map_singleton rows

theorem keyOf_append (A B : List String) (r : Row) :
    keyOf (A ++ B) r = keyOf A r ++ keyOf B r := by
  simp [keyOf]

theorem hasKey_append {A B : List String} {r : Row} (h : hasKey (A ++ B) r = true) :
    hasKey A r = true ∧ hasKey B r = true := by
  simp only [hasKey, List.all_append, Bool.and_eq_true] at h
  exact h

theorem tier1KeyCols_eq (ka aa : List String) :
    tier1KeyCols ka aa = DEVICE_TYPE_ATTRIBUTES ++ tier2KeyCols ka aa := by
  simp [tier1KeyCols, tier2KeyCols, List.append_assoc]

theorem keyOf_tier1_decomp (ka aa : List String) (r : Row) :
    keyOf (tier1KeyCols ka aa) r =
      cellOf r "device_vendor" :: cellOf r "device_type" :: keyOf (tier2KeyCols ka aa) r := by
  rw [tier1KeyCols_eq, keyOf_append]
  rfl

theorem keyOf_component {kcols : List String} {r r₂ : Row}
    (h : keyOf kcols r = keyOf kcols r₂) : ∀ c ∈ kcols, cellOf r c = cellOf r₂ c := by
  induction kcols with
  | nil => intro c hc; exact absurd hc (List.not_mem_nil c)
  | cons c₀ cs ih =>
      simp only [keyOf, List.map_cons, List.cons.injEq] at h
      intro c hc
      rcases List.mem_cons.mp hc with rfl | hc2
      · exact h.1
      · exact ih h.2 c hc2

theorem keyOf_congr {kcols : List String} {r r₂ : Row}
    (h : ∀ c ∈ kcols, cellOf r c = cellOf r₂ c) : keyOf kcols r = keyOf kcols r₂ :=
  List.map_congr_left h

theorem hasKey_of_cells {kcols : List String} {r r₂ : Row}
    (h : ∀ c ∈ kcols, cellOf r c = cellOf r₂ c) (h₂ : hasKey kcols r₂ = true) :
    hasKey kcols r = true := by
  simp only [hasKey, List.all_eq_true] at h₂ ⊢
  intro c hc
  rw [h c hc]
  exact h₂ c hc

theorem get_best_resultsRows_ne_nil {rows : List Row} (hne : rows ≠ [])
    (hdev : ∀ r ∈ rows, hasKey DEVICE_ATTRIBUTES r = true) :
    get_best_resultsRows rows ≠ [] := by
  cases rows with
  | nil => exact absurd rfl hne
  | cons r rs =>
      have hr : r ∈ r :: rs := List.mem_cons_self _ _
      have hkr := hdev r hr
      have hg : r ∈ groupRows DEVICE_ATTRIBUTES (keyOf DEVICE_ATTRIBUTES r) (r :: rs) :=
        mem_groupRows.mpr ⟨hr, hkr, rfl⟩
      cases hmin : colMinOf
          (groupRows DEVICE_ATTRIBUTES (keyOf DEVICE_ATTRIBUTES r) (r :: rs)) "time" with
      | none =>
          have hnone := colMinOf_eq_none.mp hmin r hg
          have hmem : r ∈ get_best_resultsRows (r :: rs) :=
            mem_get_best_resultsRows_iff.mpr ⟨hr, hkr, by rw [hmin, hnone]⟩
          exact List.ne_nil_of_mem hmem
      | some v =>
          rcases colMinOf_mem hmin with ⟨r₂, hr₂, hv₂⟩
          have hgm := mem_groupRows.mp hr₂
          have hmem : r₂ ∈ get_best_resultsRows (r :: rs) :=
            mem_get_best_resultsRows_iff.mpr ⟨hgm.1, hgm.2.1, by
              rw [hgm.2.2, hmin, hv₂]⟩
          exact List.ne_nil_of_mem hmem

theorem tier1Series_false_frame (ka aa : List String) (t : Table) (k : List Cell)
    (c : String) (h1 : c ≠ "device") (h2 : c ≠ "device_compute_units")
    (h3 : c ≠ "device_core_clock") (h4 : c ≠ "time") :
    cellOf (tier1Series ka aa t false k).val c =
      if c ∈ t.cols then
        colMinOf (get_best_resultsRows (groupRows (tier1KeyCols ka aa) k t.rows)) c
      else none := by
  rw [tier1Series, if_neg Bool.false_ne_true, stamped_cell_frame _ _ h1 h2 h3 h4,
    get_smallest_best, mkSeriesF_cell]
  rfl

theorem tier2Series_frame (ka aa : List String) (t : Table) (k : List Cell)
    (c : String) (h1 : c ≠ "device") (h2 : c ≠ "device_compute_units")
    (h3 : c ≠ "device_core_clock") (h4 : c ≠ "time") (h5 : c ≠ "device_vendor")
    (h6 : c ≠ "device_type") :
    cellOf (tier2Series ka aa t k).val c =
      if c ∈ t.cols then
        colMinOf (get_best_resultsRows (groupRows (tier2KeyCols ka aa) k t.rows)) c
      else none := by
  have g5 : ¬("device_type" = c) := fun h => h6 h.symm
  have g6 : ¬("device_vendor" = c) := fun h => h5 h.symm
  rw [tier2Series, stamped_cell_frame _ _ h1 h2 h3 h4, seriesSet_cell, if_neg g5,
    seriesSet_cell, if_neg g6, get_smallest_best, mkSeriesF_cell]
  rfl

theorem tier2Series_vendor_cell (ka aa : List String) (t : Table) (k : List Cell) :
    cellOf (tier2Series ka aa t k).val "device_vendor" = some (Val.str VENDOR_DEFAULT) := by
  rw [tier2Series, stamped_cell_frame _ _ (by decide) (by decide) (by decide) (by decide)]
  simp [seriesSet_cell]

theorem tier2Series_type_cell (ka aa : List String) (t : Table) (k : List Cell) :
    cellOf (tier2Series ka aa t k).val "device_type" = some (Val.str DEVICE_TYPE_DEFAULT) := by
  rw [tier2Series, stamped_cell_frame _ _ (by decide) (by decide) (by decide) (by decide)]
  simp [seriesSet_cell]

theorem tier1Series_stamped (ka aa : List String) (t : Table) (ccb : Bool) (k : List Cell) :
    cellOf (tier1Series ka aa t ccb k).val "device" = some (Val.str DEVICE_NAME_DEFAULT) ∧
    cellOf (tier1Series ka aa t ccb k).val "device_compute_units" = some (Val.num 0) ∧
    cellOf (tier1Series ka aa t ccb k).val "device_core_clock" = some (Val.num 0) ∧
    cellOf (tier1Series ka aa t ccb k).val "time" = some (Val.num 0) :=
  ⟨stamped_cell_device _, stamped_cell_units _, stamped_cell_clock _, stamped_cell_time _⟩

theorem tier2Series_stamped (ka aa : List String) (t : Table) (k : List Cell) :
    cellOf (tier2Series ka aa t k).val "device" = some (Val.str DEVICE_NAME_DEFAULT) ∧
    cellOf (tier2Series ka aa t k).val "device_compute_units" = some (Val.num 0) ∧
    cellOf (tier2Series ka aa t k).val "device_core_clock" = some (Val.num 0) ∧
    cellOf (tier2Series ka aa t k).val "time" = some (Val.num 0) :=
  ⟨stamped_cell_device _, stamped_cell_units _, stamped_cell_clock _, stamped_cell_time _⟩

theorem mem_tier1KeyCols {ka aa : List String} {c : String} :
    c ∈ tier1KeyCols ka aa ↔
      c = "device_vendor" ∨ c = "device_type" ∨ c ∈ ka ∨ c = "kernel" ∨ c ∈ aa := by
  simp [tier1KeyCols, DEVICE_TYPE_ATTRIBUTES, List.mem_append, or_assoc]

theorem mem_tier2KeyCols {ka aa : List String} {c : String} :
    c ∈ tier2KeyCols ka aa ↔ c ∈ ka ∨ c = "kernel" ∨ c ∈ aa := by
  simp [tier2KeyCols, List.mem_append, or_assoc]

theorem idem_sep_t1 {ka aa : List String}
    (hsep : ∀ c ∈ ka ++ aa, c ∉ DEVICE_ATTRIBUTES ∧ c ≠ "time") {c : String}
    (hc : c ∈ tier1KeyCols ka aa) :
    c ≠ "device" ∧ c ≠ "device_compute_units" ∧ c ≠ "device_core_clock" ∧ c ≠ "time" := by
  have hof : c ∈ ka ∨ c ∈ aa →
      c ≠ "device" ∧ c ≠ "device_compute_units" ∧ c ≠ "device_core_clock" ∧ c ≠ "time" := by
    intro h
    have hm : c ∈ ka ++ aa := by
      rcases h with h | h
      · exact List.mem_append_left _ h
      · exact List.mem_append_right _ h
    have hda := hsep c hm
    refine ⟨?_, ?_, ?_, hda.2⟩ <;> intro he <;> subst he <;> exact hda.1 (by decide)
  rcases mem_tier1KeyCols.mp hc with rfl | rfl | h | rfl | h
  · exact ⟨by decide, by decide, by decide, by decide⟩
  · exact ⟨by decide, by decide, by decide, by decide⟩
  · exact hof (Or.inl h)
  · exact ⟨by decide, by decide, by decide, by decide⟩
  · exact hof (Or.inr h)

theorem idem_sep_t2 {ka aa : List String}
    (hsep : ∀ c ∈ ka ++ aa, c ∉ DEVICE_ATTRIBUTES ∧ c ≠ "time") {c : String}
    (hc : c ∈ tier2KeyCols ka aa) :
    c ≠ "device" ∧ c ≠ "device_compute_units" ∧ c ≠ "device_core_clock" ∧ c ≠ "time" ∧
    c ≠ "device_vendor" ∧ c ≠ "device_type" := by
  have hof : c ∈ ka ∨ c ∈ aa →
      c ≠ "device" ∧ c ≠ "device_compute_units" ∧ c ≠ "device_core_clock" ∧ c ≠ "time" ∧
      c ≠ "device_vendor" ∧ c ≠ "device_type" := by
    intro h
    have hm : c ∈ ka ++ aa := by
      rcases h with h | h
      · exact List.mem_append_left _ h
      · exact List.mem_append_right _ h
    have hda := hsep c hm
    refine ⟨?_, ?_, ?_, hda.2, ?_, ?_⟩ <;> intro he <;> subst he <;> exact hda.1 (by decide)
  rcases mem_tier2KeyCols.mp hc with h | rfl | h
  · exact hof (Or.inl h)
  · exact ⟨by decide, by decide, by decide, by decide, by decide, by decide⟩
  · exact hof (Or.inr h)

theorem idem_t1_cells {ka aa : List String} {t : Table}
    (hdev : ∀ r ∈ t.rows, hasKey DEVICE_ATTRIBUTES r = true)
    (hsep : ∀ c ∈ ka ++ aa, c ∉ DEVICE_ATTRIBUTES ∧ c ≠ "time")
    (hkeycols : ∀ c ∈ tier1KeyCols ka aa, c ∈ t.cols)
    {k : List Cell} (hk : k ∈ groupbyKeys (tier1KeyCols ka aa) t.rows) :
    ∃ r₀ ∈ t.rows, hasKey (tier1KeyCols ka aa) r₀ = true ∧
      keyOf (tier1KeyCols ka aa) r₀ = k ∧
      ∀ c ∈ tier1KeyCols ka aa, cellOf (tier1Series ka aa t false k).val c = cellOf r₀ c := by
  rcases mem_groupbyKeys.mp hk with ⟨r₀, hr₀, hkey, hkeq⟩
  refine ⟨r₀, hr₀, hkey, hkeq, ?_⟩
  intro c hc
  obtain ⟨h1, h2, h3, h4⟩ := idem_sep_t1 hsep hc
  rw [tier1Series_false_frame ka aa t k c h1 h2 h3 h4, if_pos (hkeycols c hc)]
  have hsome : ∃ v, cellOf r₀ c = some v := by
    have hk2 := hkey
    simp only [hasKey, List.all_eq_true] at hk2
    have h := hk2 c hc
    cases hcv : cellOf r₀ c with
    | none => rw [hcv] at h; exact absurd h (by simp)
    | some v => exact ⟨v, rfl⟩
  obtain ⟨v, hv⟩ := hsome
  rw [hv]
  refine colMinOf_const (get_best_resultsRows_ne_nil (groupRows_ne_nil hk)
    (fun r hr => hdev r (mem_groupRows.mp hr).1)) ?_
  intro r hr
  have hg := mem_groupRows.mp (mem_of_mem_get_best_resultsRows hr)
  have hkk : keyOf (tier1KeyCols ka aa) r = keyOf (tier1KeyCols ka aa) r₀ := by
    rw [hg.2.2, hkeq]
  rw [keyOf_component hkk c hc, hv]

theorem idem_t2_cells {ka aa : List String} {t : Table}
    (hdev : ∀ r ∈ t.rows, hasKey DEVICE_ATTRIBUTES r = true)
    (hsep : ∀ c ∈ ka ++ aa, c ∉ DEVICE_ATTRIBUTES ∧ c ≠ "time")
    (hkeycols : ∀ c ∈ tier1KeyCols ka aa, c ∈ t.cols)
    {k : List Cell} (hk : k ∈ groupbyKeys (tier2KeyCols ka aa) t.rows) :
    ∃ r₀ ∈ t.rows, hasKey (tier2KeyCols ka aa) r₀ = true ∧
      keyOf (tier2KeyCols ka aa) r₀ = k ∧
      ∀ c ∈ tier2KeyCols ka aa, cellOf (tier2Series ka aa t k).val c = cellOf r₀ c := by
  rcases mem_groupbyKeys.mp hk with ⟨r₀, hr₀, hkey, hkeq⟩
  refine ⟨r₀, hr₀, hkey, hkeq, ?_⟩
  intro c hc
  obtain ⟨h1, h2, h3, h4, h5, h6⟩ := idem_sep_t2 hsep hc
  have hct1 : c ∈ tier1KeyCols ka aa := by
    rw [tier1KeyCols_eq]
    exact List.mem_append_right _ hc
  rw [tier2Series_frame ka aa t k c h1 h2 h3 h4 h5 h6, if_pos (hkeycols c hct1)]
  have hsome : ∃ v, cellOf r₀ c = some v := by
    have hk2 := hkey
    simp only [hasKey, List.all_eq_true] at hk2
    have h := hk2 c hc
    cases hcv : cellOf r₀ c with
    | none => rw [hcv] at h; exact absurd h (by simp)
    | some v => exact ⟨v, rfl⟩
  obtain ⟨v, hv⟩ := hsome
  rw [hv]
  refine colMinOf_const (get_best_resultsRows_ne_nil (groupRows_ne_nil hk)
    (fun r hr => hdev r (mem_groupRows.mp hr).1)) ?_
  intro r hr
  have hg := mem_groupRows.mp (mem_of_mem_get_best_resultsRows hr)
  have hkk : keyOf (tier2KeyCols ka aa) r = keyOf (tier2KeyCols ka aa) r₀ := by
    rw [hg.2.2, hkeq]
  rw [keyOf_component hkk c hc, hv]

theorem mem_out_rows {ka aa : List String} {t : Table} {ccb : Bool} {ρ : Row}
    (hρ : ρ ∈ (calculate_defaults ka aa t ccb).rows) :
    (∃ k ∈ groupbyKeys (tier1KeyCols ka aa) t.rows, ρ = (tier1Series ka aa t ccb k).val) ∨
    (∃ k ∈ groupbyKeys (tier2KeyCols ka aa) t.rows, ρ = (tier2Series ka aa t k).val) := by
  rw [calculate_defaults_rows_eq] at hρ
  rcases List.mem_append.mp hρ with h | h
  · rcases List.mem_map.mp h with ⟨k, hk, rfl⟩
    exact Or.inl ⟨k, hk, rfl⟩
  · rcases List.mem_map.mp h with ⟨k, hk, rfl⟩
    exact Or.inr ⟨k, hk, rfl⟩

theorem isSome_of_hasKey {kc : List String} {r : Row} {c : String}
    (h : hasKey kc r = true) (hc : c ∈ kc) : (cellOf r c).isSome = true := by
  simp only [hasKey, List.all_eq_true] at h
  exact h c hc

theorem hasKey_append_intro {A B : List String} {r : Row} (hA : hasKey A r = true)
    (hB : hasKey B r = true) : hasKey (A ++ B) r = true := by
  simp only [hasKey, List.all_append, Bool.and_eq_true]
  exact ⟨hA, hB⟩

theorem idem_f1_key {ka aa : List String} {t : Table}
    (hdev : ∀ r ∈ t.rows, hasKey DEVICE_ATTRIBUTES r = true)
    (hvendor : ∀ r ∈ t.rows, cellOf r "device_vendor" ≠ some (Val.str VENDOR_DEFAULT))
    (hsep : ∀ c ∈ ka ++ aa, c ∉ DEVICE_ATTRIBUTES ∧ c ≠ "time")
    (hkeycols : ∀ c ∈ tier1KeyCols ka aa, c ∈ t.cols)
    {k : List Cell} (hk : k ∈ groupbyKeys (tier1KeyCols ka aa) t.rows) :
    keyOf (tier1KeyCols ka aa) (tier1Series ka aa t false k).val = k ∧
    hasKey (tier1KeyCols ka aa) (tier1Series ka aa t false k).val = true ∧
    keyOf (tier2KeyCols ka aa) (tier1Series ka aa t false k).val ∈
      groupbyKeys (tier2KeyCols ka aa) t.rows ∧
    cellOf (tier1Series ka aa t false k).val "device_vendor" ≠
      some (Val.str VENDOR_DEFAULT) := by
  rcases idem_t1_cells hdev hsep hkeycols hk with ⟨r₀, hr₀, hkey, hkeq, hcells⟩
  have hkey2 : hasKey (tier2KeyCols ka aa) r₀ = true := by
    rw [tier1KeyCols_eq] at hkey
    exact (hasKey_append hkey).2
  have hsub : ∀ c ∈ tier2KeyCols ka aa, c ∈ tier1KeyCols ka aa := by
    intro c hc
    rw [tier1KeyCols_eq]
    exact List.mem_append_right _ hc
  refine ⟨?_, hasKey_of_cells hcells hkey, ?_, ?_⟩
  · rw [keyOf_congr hcells, hkeq]
  · have : keyOf (tier2KeyCols ka aa) (tier1Series ka aa t false k).val =
        keyOf (tier2KeyCols ka aa) r₀ :=
      keyOf_congr (fun c hc => hcells c (hsub c hc))
    rw [this]
    exact mem_groupbyKeys.mpr ⟨r₀, hr₀, hkey2, rfl⟩
  · have hm : "device_vendor" ∈ tier1KeyCols ka aa := by
      rw [tier1KeyCols_eq]
      exact List.mem_append_left _ (by decide)
    rw [hcells "device_vendor" hm]
    exact hvendor r₀ hr₀

theorem idem_f2_key {ka aa : List String} {t : Table}
    (hdev : ∀ r ∈ t.rows, hasKey DEVICE_ATTRIBUTES r = true)
    (hsep : ∀ c ∈ ka ++ aa, c ∉ DEVICE_ATTRIBUTES ∧ c ≠ "time")
    (hkeycols : ∀ c ∈ tier1KeyCols ka aa, c ∈ t.cols)
    {k : List Cell} (hk : k ∈ groupbyKeys (tier2KeyCols ka aa) t.rows) :
    keyOf (tier2KeyCols ka aa) (tier2Series ka aa t k).val = k ∧
    hasKey (tier2KeyCols ka aa) (tier2Series ka aa t k).val = true ∧
    keyOf (tier1KeyCols ka aa) (tier2Series ka aa t k).val =
      some (Val.str VENDOR_DEFAULT) :: some (Val.str DEVICE_TYPE_DEFAULT) :: k ∧
    hasKey (tier1KeyCols ka aa) (tier2Series ka aa t k).val = true := by
  rcases idem_t2_cells hdev hsep hkeycols hk with ⟨r₀, hr₀, hkey, hkeq, hcells⟩
  have hk2 : keyOf (tier2KeyCols ka aa) (tier2Series ka aa t k).val = k := by
    rw [keyOf_congr hcells, hkeq]
  have hhk2 : hasKey (tier2KeyCols ka aa) (tier2Series ka aa t k).val = true :=
    hasKey_of_cells hcells hkey
  have hdta : hasKey DEVICE_TYPE_ATTRIBUTES (tier2Series ka aa t k).val = true := by
    simp [hasKey, DEVICE_TYPE_ATTRIBUTES, tier2Series_vendor_cell, tier2Series_type_cell]
  refine ⟨hk2, hhk2, ?_, ?_⟩
  · rw [keyOf_tier1_decomp, tier2Series_vendor_cell, tier2Series_type_cell, hk2]
  · rw [tier1KeyCols_eq]
    exact hasKey_append_intro hdta hhk2

theorem idem_out_valid {ka aa : List String} {t : Table}
    (hdev : ∀ r ∈ t.rows, hasKey DEVICE_ATTRIBUTES r = true)
    (hvendor : ∀ r ∈ t.rows, cellOf r "device_vendor" ≠ some (Val.str VENDOR_DEFAULT))
    (hsep : ∀ c ∈ ka ++ aa, c ∉ DEVICE_ATTRIBUTES ∧ c ≠ "time")
    (hkeycols : ∀ c ∈ tier1KeyCols ka aa, c ∈ t.cols) :
    ∀ ρ ∈ (calculate_defaults ka aa t false).rows,
      hasKey (tier1KeyCols ka aa) ρ = true ∧ hasKey DEVICE_ATTRIBUTES ρ = true ∧
      cellOf ρ "device" = some (Val.str DEVICE_NAME_DEFAULT) ∧
      cellOf ρ "device_compute_units" = some (Val.num 0) ∧
      cellOf ρ "device_core_clock" = some (Val.num 0) ∧
      cellOf ρ "time" = some (Val.num 0) := by
  intro ρ hρ
  have hdevkey : hasKey (tier1KeyCols ka aa) ρ = true → hasKey DEVICE_ATTRIBUTES ρ = true ∧
      cellOf ρ "device" = some (Val.str DEVICE_NAME_DEFAULT) ∧
      cellOf ρ "device_compute_units" = some (Val.num 0) ∧
      cellOf ρ "device_core_clock" = some (Val.num 0) ∧
      cellOf ρ "time" = some (Val.num 0) →
      hasKey (tier1KeyCols ka aa) ρ = true ∧ hasKey DEVICE_ATTRIBUTES ρ = true ∧
      cellOf ρ "device" = some (Val.str DEVICE_NAME_DEFAULT) ∧
      cellOf ρ "device_compute_units" = some (Val.num 0) ∧
      cellOf ρ "device_core_clock" = some (Val.num 0) ∧
      cellOf ρ "time" = some (Val.num 0) := fun h h2 => ⟨h, h2⟩
  rcases mem_out_rows hρ with ⟨k, hk, rfl⟩ | ⟨k, hk, rfl⟩
  · obtain ⟨hkey1, hhk1, _, _⟩ := idem_f1_key hdev hvendor hsep hkeycols hk
    obtain ⟨hs1, hs2, hs3, hs4⟩ := tier1Series_stamped ka aa t false k
    refine ⟨hhk1, ?_, hs1, hs2, hs3, hs4⟩
    have hvs : (cellOf (tier1Series ka aa t false k).val "device_vendor").isSome = true :=
      isSome_of_hasKey hhk1 (by rw [tier1KeyCols_eq]; exact List.mem_append_left _ (by decide))
    have hts : (cellOf (tier1Series ka aa t false k).val "device_type").isSome = true :=
      isSome_of_hasKey hhk1 (by rw [tier1KeyCols_eq]; exact List.mem_append_left _ (by decide))
    simp [hasKey, DEVICE_ATTRIBUTES, hs1, hs2, hs3, hvs, hts]
  · obtain ⟨hkey2, hhk2, hkey1, hhk1⟩ := idem_f2_key hdev hsep hkeycols hk
    obtain ⟨hs1, hs2, hs3, hs4⟩ := tier2Series_stamped ka aa t k
    refine ⟨hhk1, ?_, hs1, hs2, hs3, hs4⟩
    simp [hasKey, DEVICE_ATTRIBUTES, hs1, hs2, hs3, tier2Series_vendor_cell,
      tier2Series_type_cell]

/-- The columns overwritten by the sentinel stamping (tiers 1 and 2 together). -/
def stampedCols : List String :=
  ["device", "device_compute_units", "device_core_clock", "time",
   "device_vendor", "device_type"]

theorem idem_out_keys_nodup {ka aa : List String} {t : Table}
    (hdev : ∀ r ∈ t.rows, hasKey DEVICE_ATTRIBUTES r = true)
    (hvendor : ∀ r ∈ t.rows, cellOf r "device_vendor" ≠ some (Val.str VENDOR_DEFAULT))
    (hsep : ∀ c ∈ ka ++ aa, c ∉ DEVICE_ATTRIBUTES ∧ c ≠ "time")
    (hkeycols : ∀ c ∈ tier1KeyCols ka aa, c ∈ t.cols) :
    ((calculate_defaults ka aa t false).rows.map (keyOf (tier1KeyCols ka aa))).Nodup := by
  rw [calculate_defaults_rows_eq, List.map_append, List.map_map, List.map_map]
  have h1 : (groupbyKeys (tier1KeyCols ka aa) t.rows).map
      (keyOf (tier1KeyCols ka aa) ∘ fun k => (tier1Series ka aa t false k).val) =
      (groupbyKeys (tier1KeyCols ka aa) t.rows).map (fun k => k) :=
    List.map_congr_left (fun k hk => (idem_f1_key hdev hvendor hsep hkeycols hk).1)
  have h2 : (groupbyKeys (tier2KeyCols ka aa) t.rows).map
      (keyOf (tier1KeyCols ka aa) ∘ fun k => (tier2Series ka aa t k).val) =
      (groupbyKeys (tier2KeyCols ka aa) t.rows).map (fun k =>
        some (Val.str VENDOR_DEFAULT) :: some (Val.str DEVICE_TYPE_DEFAULT) :: k) :=
    List.map_congr_left (fun k hk => (idem_f2_key hdev hsep hkeycols hk).2.2.1)
  rw [h1, h2, List.map_id']
  refine List.Nodup.append (groupbyKeys_nodup _ _) ?_ ?_
  · refine (groupbyKeys_nodup _ _).map_on ?_
    intro x _ y _ hxy
    have := (List.cons.injEq _ _ _ _).mp hxy
    exact ((List.cons.injEq _ _ _ _).mp this.2).2
  · intro x hx1 hx2
    rcases List.mem_map.mp hx2 with ⟨k2, _, hk2⟩
    rcases mem_groupbyKeys.mp hx1 with ⟨r₀, hr₀, hkey, hkeq⟩
    rw [keyOf_tier1_decomp] at hkeq
    rw [← hk2] at hkeq
    have hv : cellOf r₀ "device_vendor" = some (Val.str VENDOR_DEFAULT) :=
      ((List.cons.injEq _ _ _ _).mp hkeq).1
    exact hvendor r₀ hr₀ hv

theorem idem_t2keys_of_out_ne {ka aa : List String} {t : Table}
    (hdev : ∀ r ∈ t.rows, hasKey DEVICE_ATTRIBUTES r = true)
    (hvendor : ∀ r ∈ t.rows, cellOf r "device_vendor" ≠ some (Val.str VENDOR_DEFAULT))
    (hsep : ∀ c ∈ ka ++ aa, c ∉ DEVICE_ATTRIBUTES ∧ c ≠ "time")
    (hkeycols : ∀ c ∈ tier1KeyCols ka aa, c ∈ t.cols)
    {ρ : Row} (hρ : ρ ∈ (calculate_defaults ka aa t false).rows) :
    groupbyKeys (tier2KeyCols ka aa) t.rows ≠ [] := by
  rcases mem_out_rows hρ with ⟨k, hk, _⟩ | ⟨k, hk, _⟩
  · exact List.ne_nil_of_mem (idem_f1_key hdev hvendor hsep hkeycols hk).2.2.1
  · exact List.ne_nil_of_mem hk

theorem mem_seriesSet_self {s : Series} {c : String} (v : Val) :
    c ∈ (seriesSet s c v).cols := (seriesSet_cols_mem s c v c).mpr (Or.inr rfl)

theorem mem_seriesSet_of {s : Series} {c x : String} (v : Val) (h : x ∈ s.cols) :
    x ∈ (seriesSet s c v).cols := (seriesSet_cols_mem s c v x).mpr (Or.inl h)

theorem mem_tier2Series_cols_intro {ka aa : List String} {t : Table} {k : List Cell}
    {c : String} (hc : c ∈ t.cols ∨ c ∈ stampedCols) :
    c ∈ (tier2Series ka aa t k).cols := by
  rw [tier2Series, set_default_time, set_default_device]
  rcases hc with h | h
  · exact mem_seriesSet_of _ (mem_seriesSet_of _ (mem_seriesSet_of _ (mem_seriesSet_of _
      (mem_seriesSet_of _ (mem_seriesSet_of _ h)))))
  · simp only [stampedCols, List.mem_cons, List.mem_singleton] at h
    rcases h with rfl | rfl | rfl | rfl | rfl | h
    · exact mem_seriesSet_of _ (mem_seriesSet_of _ (mem_seriesSet_of _
        (mem_seriesSet_self _)))
    · exact mem_seriesSet_of _ (mem_seriesSet_of _ (mem_seriesSet_self _))
    · exact mem_seriesSet_of _ (mem_seriesSet_self _)
    · exact mem_seriesSet_self _
    · exact mem_seriesSet_of _ (mem_seriesSet_of _ (mem_seriesSet_of _ (mem_seriesSet_of _
        (mem_seriesSet_of _ (mem_seriesSet_self _)))))
    · rcases h with rfl | h
      · exact mem_seriesSet_of _ (mem_seriesSet_of _ (mem_seriesSet_of _ (mem_seriesSet_of _
          (mem_seriesSet_self _))))
      · exact absurd h (List.not_mem_nil c)

theorem idem_out_cols_fwd {ka aa : List String} {t : Table}
    (hne : groupbyKeys (tier2KeyCols ka aa) t.rows ≠ []) :
    ∀ c, c ∈ t.cols ∨ c ∈ stampedCols → c ∈ (calculate_defaults ka aa t false).cols := by
  intro c hc
  cases hk : groupbyKeys (tier2KeyCols ka aa) t.rows with
  | nil => exact absurd hk hne
  | cons k0 ks =>
      rw [calculate_defaults]
      refine mem_appendAll_cols.mpr
        (Or.inr ⟨tier2Series ka aa t k0, ?_, mem_tier2Series_cols_intro hc⟩)
      rw [hk]
      exact List.mem_map.mpr ⟨k0, List.mem_cons_self _ _, rfl⟩

theorem idem_out_cols_bwd {ka aa : List String} {t : Table} :
    ∀ c ∈ (calculate_defaults ka aa t false).cols, c ∈ t.cols ∨ c ∈ stampedCols := by
  intro c hc
  rw [calculate_defaults] at hc
  rcases mem_appendAll_cols.mp hc with h | ⟨s, hs, hxs⟩
  · rw [tier1_table] at h
    rcases mem_appendAll_cols.mp h with h2 | ⟨s, hs, hxs⟩
    · exact absurd h2 (List.not_mem_nil c)
    · rcases List.mem_map.mp hs with ⟨k, _, rfl⟩
      revert hxs
      rw [tier1Series, if_neg Bool.false_ne_true, set_default_time, set_default_device]
      intro hxs
      have hbase : ∀ y ∈ (get_smallest_best (groupTable t (tier1KeyCols ka aa) k)).cols,
          y ∈ t.cols ∨ y ∈ stampedCols := fun y hy => Or.inl hy
      exact mem_seriesSet_cols_sub (mem_seriesSet_cols_sub (mem_seriesSet_cols_sub
        (mem_seriesSet_cols_sub hbase (Or.inr (by decide))) (Or.inr (by decide)))
        (Or.inr (by decide))) (Or.inr (by decide)) c hxs
  · rcases List.mem_map.mp hs with ⟨k, _, rfl⟩
    revert hxs
    rw [tier2Series, set_default_time, set_default_device]
    intro hxs
    have hbase : ∀ y ∈ (get_smallest_best (groupTable t (tier2KeyCols ka aa) k)).cols,
        y ∈ t.cols ∨ y ∈ stampedCols := fun y hy => Or.inl hy
    exact mem_seriesSet_cols_sub (mem_seriesSet_cols_sub (mem_seriesSet_cols_sub
      (mem_seriesSet_cols_sub (mem_seriesSet_cols_sub (mem_seriesSet_cols_sub hbase
      (Or.inr (by decide))) (Or.inr (by decide))) (Or.inr (by decide)))
      (Or.inr (by decide))) (Or.inr (by decide))) (Or.inr (by decide)) c hxs

theorem idem_out_wf {ka aa : List String} {t : Table}
    (hdev : ∀ r ∈ t.rows, hasKey DEVICE_ATTRIBUTES r = true)
    (hvendor : ∀ r ∈ t.rows, cellOf r "device_vendor" ≠ some (Val.str VENDOR_DEFAULT))
    (hsep : ∀ c ∈ ka ++ aa, c ∉ DEVICE_ATTRIBUTES ∧ c ≠ "time")
    (hkeycols : ∀ c ∈ tier1KeyCols ka aa, c ∈ t.cols) :
    ∀ ρ ∈ (calculate_defaults ka aa t false).rows,
      ∀ c, c ∉ (calculate_defaults ka aa t false).cols → cellOf ρ c = none := by
  intro ρ hρ c hc
  have hne := idem_t2keys_of_out_ne hdev hvendor hsep hkeycols hρ
  have hct : c ∉ t.cols := fun h => hc (idem_out_cols_fwd hne c (Or.inl h))
  have hcs : c ∉ stampedCols := fun h => hc (idem_out_cols_fwd hne c (Or.inr h))
  have h1 : c ≠ "device" := fun he => hcs (by rw [he]; decide)
  have h2 : c ≠ "device_compute_units" := fun he => hcs (by rw [he]; decide)
  have h3 : c ≠ "device_core_clock" := fun he => hcs (by rw [he]; decide)
  have h4 : c ≠ "time" := fun he => hcs (by rw [he]; decide)
  have h5 : c ≠ "device_vendor" := fun he => hcs (by rw [he]; decide)
  have h6 : c ≠ "device_type" := fun he => hcs (by rw [he]; decide)
  rcases mem_out_rows hρ with ⟨k, hk, rfl⟩ | ⟨k, hk, rfl⟩
  · rw [tier1Series_false_frame ka aa t k c h1 h2 h3 h4, if_neg hct]
  · rw [tier2Series_frame ka aa t k c h1 h2 h3 h4 h5 h6, if_neg hct]

theorem keyOf_dev_decomp (r : Row) :
    keyOf DEVICE_ATTRIBUTES r =
      [cellOf r "device", cellOf r "device_vendor", cellOf r "device_type",
       cellOf r "device_compute_units", cellOf r "device_core_clock"] := rfl

theorem idem_reproduce {ka aa : List String} {t : Table}
    (hdev : ∀ r ∈ t.rows, hasKey DEVICE_ATTRIBUTES r = true)
    (hvendor : ∀ r ∈ t.rows, cellOf r "device_vendor" ≠ some (Val.str VENDOR_DEFAULT))
    (hsep : ∀ c ∈ ka ++ aa, c ∉ DEVICE_ATTRIBUTES ∧ c ≠ "time")
    (hkeycols : ∀ c ∈ tier1KeyCols ka aa, c ∈ t.cols)
    {ρ : Row} (hρ : ρ ∈ (calculate_defaults ka aa t false).rows) :
    keyOf (tier1KeyCols ka aa) ρ ∈
      groupbyKeys (tier1KeyCols ka aa) (calculate_defaults ka aa t false).rows ∧
    ∀ c, cellOf (tier1Series ka aa (calculate_defaults ka aa t false) false
        (keyOf (tier1KeyCols ka aa) ρ)).val c = cellOf ρ c := by
  have hvalid := idem_out_valid hdev hvendor hsep hkeycols
  have hnodup := idem_out_keys_nodup hdev hvendor hsep hkeycols
  have hkmem : keyOf (tier1KeyCols ka aa) ρ ∈
      groupbyKeys (tier1KeyCols ka aa) (calculate_defaults ka aa t false).rows :=
    mem_groupbyKeys.mpr ⟨ρ, hρ, (hvalid ρ hρ).1, rfl⟩
  refine ⟨hkmem, ?_⟩
  have hsing : groupRows (tier1KeyCols ka aa) (keyOf (tier1KeyCols ka aa) ρ)
      (calculate_defaults ka aa t false).rows = [ρ] :=
    groupRows_singleton hρ (fun r hr => (hvalid r hr).1) hnodup
  intro c
  by_cases hstamp : c = "device" ∨ c = "device_compute_units" ∨
      c = "device_core_clock" ∨ c = "time"
  · obtain ⟨_, _, hd, hu, hcl, htm⟩ := hvalid ρ hρ
    obtain ⟨hs1, hs2, hs3, hs4⟩ :=
      tier1Series_stamped ka aa (calculate_defaults ka aa t false) false
        (keyOf (tier1KeyCols ka aa) ρ)
    rcases hstamp with rfl | rfl | rfl | rfl
    · rw [hs1, hd]
    · rw [hs2, hu]
    · rw [hs3, hcl]
    · rw [hs4, htm]
  · push_neg at hstamp
    obtain ⟨h1, h2, h3, h4⟩ := hstamp
    rw [tier1Series_false_frame ka aa (calculate_defaults ka aa t false)
      (keyOf (tier1KeyCols ka aa) ρ) c h1 h2 h3 h4, hsing]
    have hid : get_best_resultsRows [ρ] = [ρ] := by
      refine get_best_resultsRows_of_distinct ?_ (by simp)
      intro r hr
      rcases List.mem_singleton.mp hr with rfl
      exact (hvalid r hρ).2.1
    rw [hid, colMinOf_singleton]
    by_cases hcm : c ∈ (calculate_defaults ka aa t false).cols
    · rw [if_pos hcm]
    · rw [if_neg hcm, idem_out_wf hdev hvendor hsep hkeycols ρ hρ c hcm]

theorem bests_subset_ext (ka aa : List String) (t : Table) (v ty : Cell) (k2 : List Cell) :
    ∀ r ∈ get_best_resultsRows (groupRows (tier1KeyCols ka aa) (v :: ty :: k2) t.rows),
      r ∈ get_best_resultsRows (groupRows (tier2KeyCols ka aa) k2 t.rows) := by
  intro r hr
  rw [mem_get_best_resultsRows_iff] at hr
  obtain ⟨hg, hdevr, htime⟩ := hr
  obtain ⟨hrt, hk1, hkeq⟩ := mem_groupRows.mp hg
  rw [keyOf_tier1_decomp] at hkeq
  have hv : cellOf r "device_vendor" = v := ((List.cons.injEq _ _ _ _).mp hkeq).1
  have hrest := ((List.cons.injEq _ _ _ _).mp hkeq).2
  have hty : cellOf r "device_type" = ty := ((List.cons.injEq _ _ _ _).mp hrest).1
  have hk2eq : keyOf (tier2KeyCols ka aa) r = k2 := ((List.cons.injEq _ _ _ _).mp hrest).2
  have hk2key : hasKey (tier2KeyCols ka aa) r = true := by
    rw [tier1KeyCols_eq] at hk1
    exact (hasKey_append hk1).2
  have hvsome : v.isSome = true := by
    rw [← hv]
    exact isSome_of_hasKey hdevr (by decide)
  have htysome : ty.isSome = true := by
    rw [← hty]
    exact isSome_of_hasKey hdevr (by decide)
  have hpt : ∀ x : Row,
      ((hasKey DEVICE_ATTRIBUTES x && decide (keyOf DEVICE_ATTRIBUTES x = keyOf DEVICE_ATTRIBUTES r)) &&
        (hasKey (tier1KeyCols ka aa) x && decide (keyOf (tier1KeyCols ka aa) x = v :: ty :: k2))) =
      ((hasKey DEVICE_ATTRIBUTES x && decide (keyOf DEVICE_ATTRIBUTES x = keyOf DEVICE_ATTRIBUTES r)) &&
        (hasKey (tier2KeyCols ka aa) x && decide (keyOf (tier2KeyCols ka aa) x = k2))) := by
    intro x
    cases hdx : (hasKey DEVICE_ATTRIBUTES x &&
        decide (keyOf DEVICE_ATTRIBUTES x = keyOf DEVICE_ATTRIBUTES r)) with
    | false => rw [Bool.false_and, Bool.false_and]
    | true =>
        rw [Bool.true_and, Bool.true_and]
        have hdx2 : hasKey DEVICE_ATTRIBUTES x = true ∧
            decide (keyOf DEVICE_ATTRIBUTES x = keyOf DEVICE_ATTRIBUTES r) = true := by
          simpa using hdx
        have hkx : keyOf DEVICE_ATTRIBUTES x = keyOf DEVICE_ATTRIBUTES r :=
          of_decide_eq_true hdx2.2
        rw [keyOf_dev_decomp, keyOf_dev_decomp] at hkx
        have hxv : cellOf x "device_vendor" = v := by
          rw [((List.cons.injEq _ _ _ _).mp ((List.cons.injEq _ _ _ _).mp hkx).2).1, hv]
        have hxty : cellOf x "device_type" = ty := by
          rw [((List.cons.injEq _ _ _ _).mp ((List.cons.injEq _ _ _ _).mp
            ((List.cons.injEq _ _ _ _).mp hkx).2).2).1, hty]
        have ht1x : hasKey (tier1KeyCols ka aa) x =
            (hasKey DEVICE_TYPE_ATTRIBUTES x && hasKey (tier2KeyCols ka aa) x) := by
          rw [tier1KeyCols_eq]
          simp [hasKey, List.all_append]
        have hdta : hasKey DEVICE_TYPE_ATTRIBUTES x = true := by
          simp [hasKey, DEVICE_TYPE_ATTRIBUTES, hxv, hxty, hvsome, htysome]
        rw [ht1x, hdta, Bool.true_and, keyOf_tier1_decomp, hxv, hxty]
        congr 1
        apply decide_eq_decide.mpr
        constructor
        · intro h
          exact ((List.cons.injEq _ _ _ _).mp ((List.cons.injEq _ _ _ _).mp h).2).2
        · intro h
          rw [h]
  have hgroups : groupRows DEVICE_ATTRIBUTES (keyOf DEVICE_ATTRIBUTES r)
      (groupRows (tier1KeyCols ka aa) (v :: ty :: k2) t.rows) =
      groupRows DEVICE_ATTRIBUTES (keyOf DEVICE_ATTRIBUTES r)
      (groupRows (tier2KeyCols ka aa) k2 t.rows) := by
    rw [groupRows, groupRows, groupRows, groupRows, List.filter_filter, List.filter_filter]
    exact List.filter_congr (fun x _ => hpt x)
  rw [mem_get_best_resultsRows_iff]
  refine ⟨mem_groupRows.mpr ⟨hrt, hk2key, hk2eq⟩, hdevr, ?_⟩
  rw [← hgroups]
  exact htime

theorem idem_t2_rerun {ka aa : List String} {t : Table}
    (hdev : ∀ r ∈ t.rows, hasKey DEVICE_ATTRIBUTES r = true)
    (hvendor : ∀ r ∈ t.rows, cellOf r "device_vendor" ≠ some (Val.str VENDOR_DEFAULT))
    (hsep : ∀ c ∈ ka ++ aa, c ∉ DEVICE_ATTRIBUTES ∧ c ≠ "time")
    (hkeycols : ∀ c ∈ tier1KeyCols ka aa, c ∈ t.cols)
    {k2 : List Cell}
    (hk2 : k2 ∈ groupbyKeys (tier2KeyCols ka aa) (calculate_defaults ka aa t false).rows) :
    k2 ∈ groupbyKeys (tier2KeyCols ka aa) t.rows ∧
    ∀ c, cellOf (tier2Series ka aa (calculate_defaults ka aa t false) k2).val c =
      cellOf (tier2Series ka aa t k2).val c := by
  have hvalid := idem_out_valid hdev hvendor hsep hkeycols
  have hmem : k2 ∈ groupbyKeys (tier2KeyCols ka aa) t.rows := by
    rcases mem_groupbyKeys.mp hk2 with ⟨ρ, hρ, hkρ, hkeq⟩
    rcases mem_out_rows hρ with ⟨k, hk, rfl⟩ | ⟨k₂, hk₂, rfl⟩
    · have h := (idem_f1_key hdev hvendor hsep hkeycols hk).2.2.1
      rw [hkeq] at h
      exact h
    · have h := (idem_f2_key hdev hsep hkeycols hk₂).1
      exact (h.symm.trans hkeq) ▸ hk₂
  have hne : groupbyKeys (tier2KeyCols ka aa) t.rows ≠ [] := List.ne_nil_of_mem hmem
  refine ⟨hmem, ?_⟩
  have hf2out : (tier2Series ka aa t k2).val ∈ (calculate_defaults ka aa t false).rows := by
    rw [calculate_defaults_rows_eq]
    exact List.mem_append_right _ (List.mem_map.mpr ⟨k2, hmem, rfl⟩)
  obtain ⟨hf2k, hf2hk, _, _⟩ := idem_f2_key hdev hsep hkeycols hmem
  have hf2G : (tier2Series ka aa t k2).val ∈
      groupRows (tier2KeyCols ka aa) k2 (calculate_defaults ka aa t false).rows :=
    mem_groupRows.mpr ⟨hf2out, hf2hk, hf2k⟩
  have hGsubout : ∀ ρ ∈ groupRows (tier2KeyCols ka aa) k2
      (calculate_defaults ka aa t false).rows, ρ ∈ (calculate_defaults ka aa t false).rows :=
    fun ρ hρ => (mem_groupRows.mp hρ).1
  have hGdev : ∀ ρ ∈ groupRows (tier2KeyCols ka aa) k2
      (calculate_defaults ka aa t false).rows, hasKey DEVICE_ATTRIBUTES ρ = true :=
    fun ρ hρ => (hvalid ρ (hGsubout ρ hρ)).2.1
  have houtnodup := idem_out_keys_nodup hdev hvendor hsep hkeycols
  have hGsl : (groupRows (tier2KeyCols ka aa) k2
      (calculate_defaults ka aa t false).rows).Sublist
      (calculate_defaults ka aa t false).rows := List.filter_sublist _
  have hGmapnodup : ((groupRows (tier2KeyCols ka aa) k2
      (calculate_defaults ka aa t false).rows).map (keyOf (tier1KeyCols ka aa))).Nodup :=
    List.Nodup.sublist (hGsl.map (keyOf (tier1KeyCols ka aa))) houtnodup
  have hGnodup : (groupRows (tier2KeyCols ka aa) k2
      (calculate_defaults ka aa t false).rows).Nodup := hGmapnodup.of_map
  have hinj := List.inj_on_of_nodup_map hGmapnodup
  have hGdevnodup : ((groupRows (tier2KeyCols ka aa) k2
      (calculate_defaults ka aa t false).rows).map (keyOf DEVICE_ATTRIBUTES)).Nodup := by
    refine hGnodup.map_on ?_
    intro x hx y hy hxy
    refine hinj hx hy ?_
    rw [keyOf_dev_decomp, keyOf_dev_decomp] at hxy
    have hv : cellOf x "device_vendor" = cellOf y "device_vendor" :=
      ((List.cons.injEq _ _ _ _).mp ((List.cons.injEq _ _ _ _).mp hxy).2).1
    have hty : cellOf x "device_type" = cellOf y "device_type" :=
      ((List.cons.injEq _ _ _ _).mp ((List.cons.injEq _ _ _ _).mp
        ((List.cons.injEq _ _ _ _).mp hxy).2).2).1
    rw [keyOf_tier1_decomp, keyOf_tier1_decomp, hv, hty,
      (mem_groupRows.mp hx).2.2, (mem_groupRows.mp hy).2.2]
  have hbG : get_best_resultsRows (groupRows (tier2KeyCols ka aa) k2
      (calculate_defaults ka aa t false).rows) =
      groupRows (tier2KeyCols ka aa) k2 (calculate_defaults ka aa t false).rows :=
    get_best_resultsRows_of_distinct hGdev hGdevnodup
  intro c
  by_cases hstamp : c = "device" ∨ c = "device_compute_units" ∨
      c = "device_core_clock" ∨ c = "time" ∨ c = "device_vendor" ∨ c = "device_type"
  · obtain ⟨ho1, ho2, ho3, ho4⟩ :=
      tier2Series_stamped ka aa (calculate_defaults ka aa t false) k2
    obtain ⟨ht1, ht2, ht3, ht4⟩ := tier2Series_stamped ka aa t k2
    rcases hstamp with rfl | rfl | rfl | rfl | rfl | rfl
    · rw [ho1, ht1]
    · rw [ho2, ht2]
    · rw [ho3, ht3]
    · rw [ho4, ht4]
    · rw [tier2Series_vendor_cell, tier2Series_vendor_cell]
    · rw [tier2Series_type_cell, tier2Series_type_cell]
  · push_neg at hstamp
    obtain ⟨h1, h2, h3, h4, h5, h6⟩ := hstamp
    rw [tier2Series_frame ka aa (calculate_defaults ka aa t false) k2 c h1 h2 h3 h4 h5 h6,
      tier2Series_frame ka aa t k2 c h1 h2 h3 h4 h5 h6]
    by_cases hco : c ∈ (calculate_defaults ka aa t false).cols
    · rw [if_pos hco, hbG]
      by_cases hct : c ∈ t.cols
      · rw [if_pos hct]
        refine colMinOf_char ⟨(tier2Series ka aa t k2).val, hf2G, ?_⟩ ?_
        · rw [tier2Series_frame ka aa t k2 c h1 h2 h3 h4 h5 h6, if_pos hct]
        · intro ρ hρG
          have hρout := hGsubout ρ hρG
          have hρk2 : keyOf (tier2KeyCols ka aa) ρ = k2 := (mem_groupRows.mp hρG).2.2
          rcases mem_out_rows hρout with ⟨k, hk, hform⟩ | ⟨k₂, hk₂, hform⟩
          · have hf1k := (idem_f1_key hdev hvendor hsep hkeycols hk).1
            have hkform : k = cellOf ρ "device_vendor" :: cellOf ρ "device_type" :: k2 := by
              rw [← hf1k, ← hform, keyOf_tier1_decomp, hρk2]
            have hcell : cellOf ρ c =
                colMinOf (get_best_resultsRows
                  (groupRows (tier1KeyCols ka aa) k t.rows)) c := by
              rw [hform, tier1Series_false_frame ka aa t k c h1 h2 h3 h4, if_pos hct]
            rw [hcell, hkform]
            exact cellLe_colMinOf_of_subset
              (bests_subset_ext ka aa t (cellOf ρ "device_vendor") (cellOf ρ "device_type") k2)
          · have hf2k2 := (idem_f2_key hdev hsep hkeycols hk₂).1
            have hk2eq : k₂ = k2 := by
              rw [← hf2k2, ← hform, hρk2]
            subst hk2eq
            rw [hform]
            rw [tier2Series_frame ka aa t k₂ c h1 h2 h3 h4 h5 h6, if_pos hct]
            exact cellLe_refl _
      · rw [if_neg hct]
        refine colMinOf_eq_none.mpr ?_
        intro ρ hρG
        rcases mem_out_rows (hGsubout ρ hρG) with ⟨k, _, hform⟩ | ⟨k₂, _, hform⟩
        · rw [hform, tier1Series_false_frame ka aa t k c h1 h2 h3 h4, if_neg hct]
        · rw [hform, tier2Series_frame ka aa t k₂ c h1 h2 h3 h4 h5 h6, if_neg hct]
    · rw [if_neg hco]
      have hct : c ∉ t.cols := fun h => hco (idem_out_cols_fwd hne c (Or.inl h))
      rw [if_neg hct]

/-- C9 amended: with the smallest-best strategy (`calculate_common_best =
false`), on databases whose records all carry their device-identity
attributes, whose vendors never equal the sentinel vendor, whose kernel and
argument attribute lists are disjoint from the device-identity and time
columns, and whose schema contains the tier-1 key columns, re-running
`calculate_defaults` on its own output reproduces the same set of default
rows (cell for cell, in both directions).  With the common-best strategy the
claim fails (see the counterexample). -/
theorem calculate_defaults_idempotent_smallest (ka aa : List String) (t : Table)
    (hdev : ∀ r ∈ t.rows, hasKey DEVICE_ATTRIBUTES r = true)
    (hvendor : ∀ r ∈ t.rows, cellOf r "device_vendor" ≠ some (Val.str VENDOR_DEFAULT))
    (hsep : ∀ c ∈ ka ++ aa, c ∉ DEVICE_ATTRIBUTES ∧ c ≠ "time")
    (hkeycols : ∀ c ∈ tier1KeyCols ka aa, c ∈ t.cols) :
    (∀ ρ ∈ (calculate_defaults ka aa t false).rows,
      ∃ ρ₂ ∈ (calculate_defaults ka aa (calculate_defaults ka aa t false) false).rows,
        ∀ c, cellOf ρ₂ c = cellOf ρ c) ∧
    (∀ ρ₂ ∈ (calculate_defaults ka aa (calculate_defaults ka aa t false) false).rows,
      ∃ ρ ∈ (calculate_defaults ka aa t false).rows, ∀ c, cellOf ρ₂ c = cellOf ρ c) := by
  constructor
  · intro ρ hρ
    obtain ⟨hkmem, hcells⟩ := idem_reproduce hdev hvendor hsep hkeycols hρ
    refine ⟨(tier1Series ka aa (calculate_defaults ka aa t false) false
        (keyOf (tier1KeyCols ka aa) ρ)).val, ?_, hcells⟩
    rw [calculate_defaults_rows_eq]
    exact List.mem_append_left _ (List.mem_map.mpr ⟨_, hkmem, rfl⟩)
  · intro ρ₂ hρ₂
    rcases mem_out_rows hρ₂ with ⟨κ, hκ, rfl⟩ | ⟨k2, hk2, rfl⟩
    · rcases mem_groupbyKeys.mp hκ with ⟨ρ, hρ, hkρ, hkeq⟩
      obtain ⟨_, hcells⟩ := idem_reproduce hdev hvendor hsep hkeycols hρ
      refine ⟨ρ, hρ, ?_⟩
      intro c
      rw [← hkeq]
      exact hcells c
    · obtain ⟨hmem, hcells⟩ := idem_t2_rerun hdev hvendor hsep hkeycols hk2
      refine ⟨(tier2Series ka aa t k2).val, ?_, hcells⟩
      rw [calculate_defaults_rows_eq]
      exact List.mem_append_right _ (List.mem_map.mpr ⟨k2, hmem, rfl⟩)

theorem calculate_defaults_idempotent_smallest_witness :
    (∀ r ∈ EX1.rows, hasKey DEVICE_ATTRIBUTES r = true) ∧
    (∀ r ∈ EX1.rows, cellOf r "device_vendor" ≠ some (Val.str VENDOR_DEFAULT)) ∧
    (∀ c ∈ ([] : List String) ++ [], c ∉ DEVICE_ATTRIBUTES ∧ c ≠ "time") ∧
    (∀ c ∈ tier1KeyCols [] [], c ∈ EX1.cols) ∧
    (∀ ρ ∈ (calculate_defaults [] [] EX1 false).rows,
      ∃ ρ₂ ∈ (calculate_defaults [] [] (calculate_defaults [] [] EX1 false) false).rows,
        ∀ c, cellOf ρ₂ c = cellOf ρ c) :=
  ⟨by decide, by decide, by decide, by decide,
   (calculate_defaults_idempotent_smallest [] [] EX1 (by decide) (by decide) (by decide)
     (by decide)).1⟩

end CLBlastDefaults
